import Mathlib

/-!
Verification development for the transfer-reassembly buffer subsystem of
libuavcan (`src/libuavcan/include/uavcan/transport/transfer_buffer.hpp`).

The repository provides the header with the class layout; the method bodies
live in `transfer_buffer.cpp`, which is not among the sources, so every
operation body below is modelled from the specification (doc comments say so
explicitly).  Machine bytes are modelled as `Nat`; a dynamic buffer's block
chain is modelled flattened, block `i` covering byte offsets
`[i*B, (i+1)*B)` for block payload size `B`, exactly as the header's comment
"Blocks are ordered from lower to higher buffer offset" prescribes.
-/

namespace Uavcan

/-- Key for the buffer manager, from the header (lines 35-67): a node id plus
a transfer type.  The node id is modelled as a `Nat` where `0` plays the role
of the invalid `NodeID` sentinel (default-constructed key), so a key is empty
iff its node id is `0`. -/
structure TransferBufferManagerKey where
  nodeId : Nat
  transferType : Nat
deriving DecidableEq, Repr

namespace TransferBufferManagerKey

/-- Header line 59: `isEmpty() { return !node_id_.isValid(); }`. -/
def isEmpty (k : TransferBufferManagerKey) : Bool :=
  k.nodeId = 0

end TransferBufferManagerKey

/-- Overlay `xs` on top of `l` starting at position `off`, leaving the rest of
`l` unchanged.  This is the shallow embedding of `std::copy` into a byte
array at a given offset. -/
def listOverlay (l : List Nat) (off : Nat) (xs : List Nat) : List Nat :=
  l.take off ++ xs ++ l.drop (off + xs.length)

/-- Static buffer, from the header (lines 153-178): a contiguous byte array
of fixed capacity `size` plus a high-water mark `maxWritePos`.  The invariant
`data.length = size` models the caller-supplied array of `size` bytes. -/
structure StaticTransferBufferImpl where
  data : List Nat
  size : Nat
  maxWritePos : Nat
deriving DecidableEq, Repr

namespace StaticTransferBufferImpl

/-- Modelled from the spec: the body of `StaticTransferBufferImpl::write` is
declared in the header (line 167) but implemented in `transfer_buffer.cpp`,
which is not among the sources.  Spec §4.3: direct bounds-checked slice copy,
`write` clamps `len` to `capacity - offset` and rejects (writes zero bytes)
if `offset >= capacity`; §4.1: the high-water mark becomes
`max(old, offset + bytes_written)`.  Returns the updated buffer and the
number of bytes actually written. -/
def write (b : StaticTransferBufferImpl) (offset : Nat) (bytes : List Nat) :
    StaticTransferBufferImpl × Nat :=
  if b.size ≤ offset then (b, 0)
  else
    let w := min bytes.length (b.size - offset)
    (⟨listOverlay b.data offset (bytes.take w), b.size,
      max b.maxWritePos (offset + w)⟩, w)

/-- Modelled from the spec: the body of `StaticTransferBufferImpl::read` is
declared in the header (line 166) but implemented in `transfer_buffer.cpp`.
Spec §4.1/§4.3: copies up to `len` bytes starting at `offset`, clamped
against the high-water mark; a read at or past the high-water mark yields
nothing.  The returned list is the bytes read; its length is the returned
byte count. -/
def read (b : StaticTransferBufferImpl) (offset len : Nat) : List Nat :=
  if b.maxWritePos ≤ offset then []
  else (b.data.drop offset).take (min len (b.maxWritePos - offset))

/-- Modelled from the spec: `StaticTransferBufferImpl::reset` (header line
169, body in `transfer_buffer.cpp`) zeroes the high-water mark; the stale
payload content is modelled as zero-filled. -/
def reset (b : StaticTransferBufferImpl) : StaticTransferBufferImpl :=
  ⟨List.replicate b.size 0, b.size, 0⟩

end StaticTransferBufferImpl

/-- Dynamic buffer entry, from the header (lines 101-147): a key, an ordered
chain of pool blocks holding the payload, a high-water mark `maxWritePos` and
the size cap `maxSize`.  The chain is modelled flattened into one byte list;
block `i` of payload size `B` covers offsets `[i*B, (i+1)*B)` ("Blocks are
ordered from lower to higher buffer offset", header line 120), so a chain of
`n` blocks is a list of `n*B` bytes. -/
structure DynamicTransferBufferManagerEntry where
  key : TransferBufferManagerKey
  blocks : List Nat
  maxWritePos : Nat
  maxSize : Nat
deriving DecidableEq, Repr

namespace DynamicTransferBufferManagerEntry

/-- Number of blocks in the chain, for payload block size `B`. -/
def numBlocks (B : Nat) (b : DynamicTransferBufferManagerEntry) : Nat :=
  b.blocks.length / B

/-- Modelled from the spec: the body of
`DynamicTransferBufferManagerEntry::write` is declared in the header (line
146) but implemented in `transfer_buffer.cpp`.  Spec §4.1 clamps the write
to the configured maximum (`offset >= max` writes zero bytes); §4.2 appends
the missing tail blocks from the pool so the chain covers the last written
offset, copies each slice at its intra-block position, and on pool
exhaustion keeps the bytes that fit in the blocks obtained so far, updates
the high-water mark only for the successfully written prefix, and reports
the truncated count.  `pool` is the free block count of the external
allocator; returns (updated buffer, updated pool, bytes written). -/
def write (B : Nat) (b : DynamicTransferBufferManagerEntry) (pool : Nat)
    (offset : Nat) (bytes : List Nat) :
    DynamicTransferBufferManagerEntry × Nat × Nat :=
  if b.maxSize ≤ offset then (b, pool, 0)
  else
    let w := min bytes.length (b.maxSize - offset)
    if w = 0 then (b, pool, 0)
    else
      let nBlk := b.blocks.length / B
      let needed := (offset + w + B - 1) / B
      let alloc := min (needed - nBlk) pool
      let newLen := (nBlk + alloc) * B
      let chain := b.blocks ++ List.replicate (newLen - b.blocks.length) 0
      let wr := min w (newLen - offset)
      (⟨b.key, listOverlay chain offset (bytes.take wr),
        if wr = 0 then b.maxWritePos else max b.maxWritePos (offset + wr),
        b.maxSize⟩, pool - alloc, wr)

/-- Modelled from the spec: the body of
`DynamicTransferBufferManagerEntry::read` is declared in the header (line
145) but implemented in `transfer_buffer.cpp`.  Spec §4.2: walk the chain
from the head, skip whole blocks below `offset`, copy until `len` bytes are
copied or the chain / high-water mark is exhausted; reads never allocate.
On the flattened chain this is a drop/take clamped by the high-water mark
and by the chain length. -/
def read (b : DynamicTransferBufferManagerEntry) (offset len : Nat) :
    List Nat :=
  if b.maxWritePos ≤ offset then []
  else (b.blocks.drop offset).take (min len (b.maxWritePos - offset))

/-- Modelled from the spec: `resetImpl` (header line 124, body in
`transfer_buffer.cpp`) releases every block of the chain back to the pool
and zeroes the high-water mark (spec §4.2).  Returns the reset entry and the
number of blocks released. -/
def resetBlocks (B : Nat) (b : DynamicTransferBufferManagerEntry) :
    DynamicTransferBufferManagerEntry × Nat :=
  (⟨b.key, [], 0, b.maxSize⟩, b.blocks.length / B)

end DynamicTransferBufferManagerEntry

/-- Static buffer entry of the manager, from the header (lines 195-210): a
key (inherited from `TransferBufferManagerEntry`) plus a
`StaticTransferBufferImpl`. -/
structure StaticTransferBufferManagerEntryImpl where
  key : TransferBufferManagerKey
  buf : StaticTransferBufferImpl
deriving DecidableEq, Repr

namespace StaticTransferBufferManagerEntryImpl

/-- Modelled from the spec: `TransferBufferManagerEntry::reset(key)` (header
lines 89-93) re-keys the entry and clears the payload via `resetImpl`
(§3 Buffer Entry). -/
def rekey (e : StaticTransferBufferManagerEntryImpl)
    (k : TransferBufferManagerKey) : StaticTransferBufferManagerEntryImpl :=
  ⟨k, e.buf.reset⟩

/-- Modelled from the spec: the body of
`StaticTransferBufferManagerEntryImpl::migrateFrom` (header line 209) is in
`transfer_buffer.cpp`.  Spec §4.4 storage optimization: copy the dynamic
entry's logical bytes (everything below its high-water mark) into the static
slot under the same key; fails (returns `none`) when the content does not
fit the slot. -/
def migrateFrom (e : StaticTransferBufferManagerEntryImpl)
    (d : DynamicTransferBufferManagerEntry) :
    Option StaticTransferBufferManagerEntryImpl :=
  if e.buf.size < d.maxWritePos then none
  else
    some ⟨d.key,
      ⟨d.blocks.take d.maxWritePos ++
        List.replicate (e.buf.size - d.maxWritePos) 0,
       e.buf.size, d.maxWritePos⟩⟩

end StaticTransferBufferManagerEntryImpl

/-- First index of the list satisfying the predicate, as the manager's linear
scans do (`findFirstStatic` / `findFirstDynamic`, header lines 266-267; spec
§4.4: tie-break for "first empty" is lowest slot index). -/
def findIdxAux {α : Type} (p : α → Bool) : List α → Option Nat
  | [] => none
  | x :: xs => if p x then some 0 else (findIdxAux p xs).map (· + 1)

/-- Buffer manager, from the header (lines 258-285): a fixed array of static
entries (supplied by the `TransferBufferManager` template), a linked list of
dynamic entries, and the configured maximum buffer size.  The dynamic list
is kept oldest-first (spec §4.4: tie-break for "oldest dynamic" is insertion
order, FIFO). -/
structure TransferBufferManagerImpl where
  statics : List StaticTransferBufferManagerEntryImpl
  dynamics : List DynamicTransferBufferManagerEntry
  maxBufSize : Nat
deriving DecidableEq, Repr

/-- Result of `access`/`create`: the located entry, static or dynamic
(`ITransferBuffer*` in the header, `NULL` modelled as `none`). -/
inductive BufferRef
  | stat (e : StaticTransferBufferManagerEntryImpl)
  | dyn (e : DynamicTransferBufferManagerEntry)
deriving DecidableEq, Repr

namespace TransferBufferManagerImpl

/-- Default static entry used for in-bounds `getD` lookups. -/
def dummyStatic : StaticTransferBufferManagerEntryImpl :=
  ⟨⟨0, 0⟩, ⟨[], 0, 0⟩⟩

/-- Default dynamic entry used for in-bounds `getD` lookups. -/
def dummyDynamic : DynamicTransferBufferManagerEntry :=
  ⟨⟨0, 0⟩, [], 0, 0⟩

/-- Index of the first static slot whose key matches `k` (the manager's
`findFirstStatic`, modelled from the spec's linear scan). -/
def findStaticIdx (m : TransferBufferManagerImpl)
    (k : TransferBufferManagerKey) : Option Nat :=
  findIdxAux (fun e => e.key == k) m.statics

/-- Index of the first free (empty-key) static slot. -/
def findFreeStaticIdx (m : TransferBufferManagerImpl) : Option Nat :=
  findIdxAux (fun e => e.key.isEmpty) m.statics

/-- Index of the first dynamic entry whose key matches `k` (the manager's
`findFirstDynamic`). -/
def findDynamicIdx (m : TransferBufferManagerImpl)
    (k : TransferBufferManagerKey) : Option Nat :=
  findIdxAux (fun e => e.key == k) m.dynamics

/-- Modelled from the spec: the body of `TransferBufferManagerImpl::access`
(header line 278) is in `transfer_buffer.cpp`.  Spec §4.4: linear scan of
static slots then the dynamic list for a matching non-empty key; read-only
with respect to placement. -/
def access (m : TransferBufferManagerImpl) (k : TransferBufferManagerKey) :
    Option BufferRef :=
  if k.isEmpty then none
  else
    match m.findStaticIdx k with
    | some i => some (.stat (m.statics.getD i dummyStatic))
    | none =>
      match m.findDynamicIdx k with
      | some j => some (.dyn (m.dynamics.getD j dummyDynamic))
      | none => none

/-- Modelled from the spec: the body of
`TransferBufferManagerImpl::optimizeStorage` (header line 268) is in
`transfer_buffer.cpp`.  Spec §4.4: whenever a static slot is free and at
least one dynamic entry exists, migrate the oldest dynamic entry's content
into the first free static slot and release its block chain (plus the
pool-allocated entry object itself, header line 142) back to the pool;
repeat until no free slot or no dynamic entry remains, stopping if a
migration fails.  `fuel` bounds the iteration by the number of dynamic
entries. -/
def optLoop (B : Nat) :
    Nat → TransferBufferManagerImpl → Nat → TransferBufferManagerImpl × Nat
  | 0, m, pool => (m, pool)
  | fuel + 1, m, pool =>
    match m.findFreeStaticIdx, m.dynamics with
    | some i, d :: rest =>
      match (m.statics.getD i dummyStatic).migrateFrom d with
      | some e =>
        optLoop B fuel ⟨m.statics.set i e, rest, m.maxBufSize⟩
          (pool + 1 + d.blocks.length / B)
      | none => (m, pool)
    | _, _ => (m, pool)

/-- Storage optimization entry point; the loop can run at most
`m.dynamics.length` migrations. -/
def optimizeStorage (B : Nat) (m : TransferBufferManagerImpl) (pool : Nat) :
    TransferBufferManagerImpl × Nat :=
  optLoop B m.dynamics.length m pool

/-- Modelled from the spec: the body of `TransferBufferManagerImpl::create`
(header line 279) is in `transfer_buffer.cpp`.  Spec §4.4: (1) if a
non-empty entry with this key exists, return it unchanged (idempotent
create); (2) else re-key the first empty static slot; (3) else instantiate a
dynamic entry sized to the configured maximum from the pool (the entry
object itself consumes one pool block, header line 142) and link it in,
returning a failure signal with the state unchanged if the pool cannot
supply the block; (4) after successful placement run storage optimization.
Returns (created/found buffer, updated manager, updated pool). -/
def create (B : Nat) (m : TransferBufferManagerImpl) (pool : Nat)
    (k : TransferBufferManagerKey) :
    Option BufferRef × TransferBufferManagerImpl × Nat :=
  if k.isEmpty then (none, m, pool)
  else
    match m.access k with
    | some r => (some r, m, pool)
    | none =>
      match m.findFreeStaticIdx with
      | some i =>
        let e := (m.statics.getD i dummyStatic).rekey k
        let m1 : TransferBufferManagerImpl :=
          ⟨m.statics.set i e, m.dynamics, m.maxBufSize⟩
        let s := optimizeStorage B m1 pool
        (some (.stat e), s.1, s.2)
      | none =>
        if pool = 0 then (none, m, pool)
        else
          let d : DynamicTransferBufferManagerEntry :=
            ⟨k, [], 0, m.maxBufSize⟩
          let m1 : TransferBufferManagerImpl :=
            ⟨m.statics, m.dynamics ++ [d], m.maxBufSize⟩
          let s := optimizeStorage B m1 (pool - 1)
          (some (.dyn d), s.1, s.2)

/-- Modelled from the spec: the body of `TransferBufferManagerImpl::remove`
(header line 280) is in `transfer_buffer.cpp`.  Spec §4.4: locate the entry
(static or dynamic); reset it — releasing any dynamic blocks (and the
pool-allocated entry object) back to the pool — and mark it empty; no-op if
the key is not found.  Freeing a static slot triggers storage optimization
(§4.4: "whenever a static slot becomes free and at least one dynamic entry
exists"). -/
def remove (B : Nat) (m : TransferBufferManagerImpl) (pool : Nat)
    (k : TransferBufferManagerKey) : TransferBufferManagerImpl × Nat :=
  if k.isEmpty then (m, pool)
  else
    match m.findStaticIdx k with
    | some i =>
      let e := (m.statics.getD i dummyStatic).rekey ⟨0, 0⟩
      optimizeStorage B ⟨m.statics.set i e, m.dynamics, m.maxBufSize⟩ pool
    | none =>
      match m.findDynamicIdx k with
      | some j =>
        let d := m.dynamics.getD j dummyDynamic
        (⟨m.statics, m.dynamics.eraseIdx j, m.maxBufSize⟩,
         pool + 1 + d.blocks.length / B)
      | none => (m, pool)

/-- Modelled from the spec: `TransferBufferManagerImpl::isEmpty` (header
line 282, body in `transfer_buffer.cpp`); spec §4.4: true iff every static
slot is empty and the dynamic list is empty. -/
def isEmpty (m : TransferBufferManagerImpl) : Bool :=
  m.statics.all (fun e => e.key.isEmpty) && m.dynamics.isEmpty

/-- Header line 284: number of occupied (non-empty-key) static slots. -/
def getNumStaticBuffers (m : TransferBufferManagerImpl) : Nat :=
  (m.statics.filter (fun e => !e.key.isEmpty)).length

/-- Header line 283: number of dynamic entries. -/
def getNumDynamicBuffers (m : TransferBufferManagerImpl) : Nat :=
  m.dynamics.length

/-- Write through the manager to the buffer registered under `k`, as a
caller holding the buffer returned by `access`/`create` would (spec §2 data
flow).  Returns (manager, pool, bytes written); an absent key writes
nothing. -/
def write (B : Nat) (m : TransferBufferManagerImpl) (pool : Nat)
    (k : TransferBufferManagerKey) (offset : Nat) (bytes : List Nat) :
    TransferBufferManagerImpl × Nat × Nat :=
  match m.findStaticIdx k with
  | some i =>
    let e := m.statics.getD i dummyStatic
    let r := e.buf.write offset bytes
    (⟨m.statics.set i ⟨e.key, r.1⟩, m.dynamics, m.maxBufSize⟩, pool, r.2)
  | none =>
    match m.findDynamicIdx k with
    | some j =>
      let d := m.dynamics.getD j dummyDynamic
      let r := d.write B pool offset bytes
      (⟨m.statics, m.dynamics.set j r.1, m.maxBufSize⟩, r.2.1, r.2.2)
    | none => (m, pool, 0)

end TransferBufferManagerImpl

/-- Fresh manager at the `TransferBufferManagerImpl` level: `numStatic`
empty static slots of capacity `slotSize` each, no dynamic entries. -/
def mkManagerImpl (numStatic slotSize maxBufSize : Nat) :
    TransferBufferManagerImpl :=
  ⟨List.replicate numStatic ⟨⟨0, 0⟩, ⟨List.replicate slotSize 0, slotSize, 0⟩⟩,
   [], maxBufSize⟩

/-- Fresh `TransferBufferManager<MaxBufSize, NumStaticBufs>` (header lines
287-303): the template instantiates
`StaticTransferBufferManagerEntry<MaxBufSize>` slots, so every static slot
has capacity equal to the configured maximum buffer size. -/
def TransferBufferManager (maxBufSize numStatic : Nat) :
    TransferBufferManagerImpl :=
  mkManagerImpl numStatic maxBufSize maxBufSize

/-- The `TransferBufferManager<0, 0>` specialization (header lines 305-315)
has no state at all; modelled as a unit-like structure. -/
structure TransferBufferManagerZero where
deriving DecidableEq, Repr

namespace TransferBufferManagerZero

/-- Header line 311: `access` returns `NULL` for every key. -/
def access (_ : TransferBufferManagerZero) (_ : TransferBufferManagerKey) :
    Option BufferRef :=
  none

/-- Header line 312: `create` returns `NULL` for every key. -/
def create (_ : TransferBufferManagerZero) (_ : TransferBufferManagerKey) :
    Option BufferRef :=
  none

/-- Header line 313: `remove` does nothing. -/
def remove (m : TransferBufferManagerZero) (_ : TransferBufferManagerKey) :
    TransferBufferManagerZero :=
  m

/-- Header line 314: `isEmpty` returns `true`. -/
def isEmptyZero (_ : TransferBufferManagerZero) : Bool :=
  true

end TransferBufferManagerZero

/-- Accessor binding a manager and a fixed key (header lines 238-253; the
manager reference is irrelevant to construction and omitted). -/
structure TransferBufferAccessor where
  key : TransferBufferManagerKey
deriving DecidableEq, Repr

/-- Construction of `TransferBufferAccessor` (header lines 244-249): the
constructor guards against an empty key with `assert(!key.isEmpty())`;
a failing assertion (abnormal termination, construction does not complete)
is modelled as `none`. -/
def TransferBufferAccessor.make (k : TransferBufferManagerKey) :
    Option TransferBufferAccessor :=
  if k.isEmpty then none else some ⟨k⟩

/-- Multiset of live (non-empty) keys across static slots and dynamic
entries; spec §3: "the set of non-empty keys across static+dynamic entries
has no duplicates". -/
def TransferBufferManagerImpl.liveKeys (m : TransferBufferManagerImpl) :
    List TransferBufferManagerKey :=
  (m.statics.map (fun e => e.key) ++ m.dynamics.map (fun e => e.key)).filter
    (fun q => !q.isEmpty)

/-- Operations a client can perform on a manager (spec §4.4), for the
reachable-state induction of the key-uniqueness invariant. -/
inductive ManagerOp
  | createOp (k : TransferBufferManagerKey)
  | accessOp (k : TransferBufferManagerKey)
  | removeOp (k : TransferBufferManagerKey)
  | optimizeOp
deriving DecidableEq, Repr

/-- One manager operation applied to a (manager, pool free count) state;
`access` is read-only with respect to placement (spec §4.4). -/
def stepOp (B : Nat) (s : TransferBufferManagerImpl × Nat) (op : ManagerOp) :
    TransferBufferManagerImpl × Nat :=
  match op with
  | .createOp k => ((s.1.create B s.2 k).2.1, (s.1.create B s.2 k).2.2)
  | .accessOp _ => s
  | .removeOp k => s.1.remove B s.2 k
  | .optimizeOp => TransferBufferManagerImpl.optimizeStorage B s.1 s.2

/-- Run a sequence of manager operations from a starting state. -/
def runOps (B : Nat) (s : TransferBufferManagerImpl × Nat)
    (ops : List ManagerOp) : TransferBufferManagerImpl × Nat :=
  ops.foldl (stepOp B) s

/-- Fragments tile the interval `[s, e)` contiguously in ascending offset
order: each fragment is non-empty and starts exactly where the previous one
ended.  A sequence of non-overlapping writes covering `[0, L)` contiguously
(claim C2) is a permutation of such a tiling of `[0, L)`. -/
def tiles : Nat → List (Nat × List Nat) → Nat → Prop
  | s, [], e => s = e
  | s, f :: rest, e => f.1 = s ∧ f.2 ≠ [] ∧ tiles (s + f.2.length) rest e

/-- Decidability of `tiles`, so that witnesses can be checked by `decide`. -/
def tilesDecAux :
    (fs : List (Nat × List Nat)) → (s e : Nat) → Decidable (tiles s fs e)
  | [], s, e => inferInstanceAs (Decidable (s = e))
  | f :: rest, s, e =>
    letI := tilesDecAux rest (s + f.2.length) e
    inferInstanceAs (Decidable (f.1 = s ∧ f.2 ≠ [] ∧ _))

instance (s : Nat) (fs : List (Nat × List Nat)) (e : Nat) :
    Decidable (tiles s fs e) :=
  tilesDecAux fs s e

/-- Apply a sequence of `write(offset, bytes)` calls to a dynamic buffer,
threading the pool free count. -/
def writeAll (B : Nat) (fs : List (Nat × List Nat))
    (s : DynamicTransferBufferManagerEntry × Nat) :
    DynamicTransferBufferManagerEntry × Nat :=
  fs.foldl
    (fun t f => ((t.1.write B t.2 f.1 f.2).1, (t.1.write B t.2 f.1 f.2).2.1))
    s

/-- Largest end offset `offset + length` over a list of fragments. -/
def maxEnd (fs : List (Nat × List Nat)) : Nat :=
  fs.foldr (fun f a => max (f.1 + f.2.length) a) 0

/-- Invariant threaded through a sequence of dynamic-buffer writes: after
the fragments of `S` have been written into buffer `b` with `pl` pool
blocks left (starting from an empty chain and `pool0` free blocks), the
size cap is intact, the chain is whole blocks, pool plus chain accounts for
`pool0`, the high-water mark is the largest fragment end and lies within
the chain, and every written fragment is stored at its offsets. -/
def WriteInv (B maxSize pool0 : Nat) (S : List (Nat × List Nat))
    (b : DynamicTransferBufferManagerEntry) (pl : Nat) : Prop :=
  b.maxSize = maxSize ∧
  B * (b.blocks.length / B) = b.blocks.length ∧
  pl + b.blocks.length / B = pool0 ∧
  b.maxWritePos = maxEnd S ∧
  b.maxWritePos ≤ b.blocks.length ∧
  ∀ f ∈ S, ∀ i, i < f.2.length → b.blocks.getD (f.1 + i) 0 = f.2.getD i 0

/-- Concrete one-slot manager holding key (1,0), used as witness input. -/
def sampleMgr : TransferBufferManagerImpl :=
  ((mkManagerImpl 1 8 8).create 4 5 ⟨1, 0⟩).2.1

/-- Concrete occupied static slot (key (1,0), 8 bytes), witness input. -/
def sampleStatic : StaticTransferBufferManagerEntryImpl :=
  ⟨⟨1, 0⟩, ⟨List.replicate 8 0, 8, 0⟩⟩

/-- Concrete dynamic entry (key (2,0), one 4-byte block, 2 bytes written),
witness input. -/
def sampleDyn : DynamicTransferBufferManagerEntry :=
  ⟨⟨2, 0⟩, [10, 20, 30, 40], 2, 16⟩

theorem listOverlay_length (l : List Nat) (off : Nat) (xs : List Nat)
    (h : off + xs.length ≤ l.length) :
    (listOverlay l off xs).length = l.length := by
  simp [listOverlay]
  omega

theorem listOverlay_getD_left (l : List Nat) (off : Nat) (xs : List Nat)
    (j d : Nat) (hj : j < off) (hoff : off ≤ l.length) :
    (listOverlay l off xs).getD j d = l.getD j d := by
  have hlen : (l.take off).length = off := by
    simp [Nat.min_eq_left hoff]
  unfold listOverlay
  rw [List.getD_eq_getElem?_getD, List.append_assoc,
    List.getElem?_append_left (by omega),
    List.getElem?_take_of_lt hj, List.getD_eq_getElem?_getD]

theorem listOverlay_getD_mid (l : List Nat) (off : Nat) (xs : List Nat)
    (j d : Nat) (h1 : off ≤ j) (h2 : j < off + xs.length)
    (hoff : off ≤ l.length) :
    (listOverlay l off xs).getD j d = xs.getD (j - off) d := by
  have hlen : (l.take off).length = off := by
    simp [Nat.min_eq_left hoff]
  unfold listOverlay
  rw [List.getD_eq_getElem?_getD, List.append_assoc,
    List.getElem?_append_right (by omega), hlen,
    List.getElem?_append_left (by omega), List.getD_eq_getElem?_getD]

theorem listOverlay_getD_right (l : List Nat) (off : Nat) (xs : List Nat)
    (j d : Nat) (h1 : off + xs.length ≤ j) (hlen : off + xs.length ≤ l.length) :
    (listOverlay l off xs).getD j d = l.getD j d := by
  have hto : (l.take off).length = off := by
    rw [List.length_take]
    exact Nat.min_eq_left (by omega)
  unfold listOverlay
  rw [List.getD_eq_getElem?_getD, List.append_assoc,
    List.getElem?_append_right (by omega), hto,
    List.getElem?_append_right (by omega)]
  rw [List.getElem?_drop, List.getD_eq_getElem?_getD]
  congr 2
  omega

theorem append_replicate_getD_left (l : List Nat) (k j d : Nat)
    (hj : j < l.length) :
    (l ++ List.replicate k 0).getD j d = l.getD j d := by
  rw [List.getD_eq_getElem?_getD, List.getElem?_append_left hj,
    List.getD_eq_getElem?_getD]

theorem append_replicate_getD_right (l : List Nat) (k j d : Nat)
    (h1 : l.length ≤ j) (h2 : j < l.length + k) :
    (l ++ List.replicate k 0).getD j d = 0 := by
  rw [List.getD_eq_getElem?_getD, List.getElem?_append_right h1,
    List.getElem?_replicate, if_pos (by omega)]
  rfl


/-- Rounding up to a multiple of `B` covers the original value. -/
theorem le_ceilDiv_mul (m B : Nat) (hB : 0 < B) :
    m ≤ ((m + B - 1) / B) * B := by
  rcases Nat.eq_zero_or_pos m with hm | hm
  · simp [hm]
  · have hq : (m + B - 1) / B = (m - 1) / B + 1 := by
      have hx : m + B - 1 = (m - 1) + B := by omega
      rw [hx, Nat.add_div_right _ hB]
    have hlt : (m - 1) / B < (m + B - 1) / B := by omega
    have := (Nat.div_lt_iff_lt_mul hB).mp hlt
    omega

/-! ### Facts about the linear scans -/

theorem findIdxAux_eq_none {α : Type} (p : α → Bool) (l : List α) :
    findIdxAux p l = none ↔ ∀ x ∈ l, p x = false := by
  induction l with
  | nil => simp [findIdxAux]
  | cons x xs ih =>
    by_cases hx : p x
    · simp [findIdxAux, hx]
    · simp [findIdxAux, hx, ih, Bool.eq_false_iff.mpr hx]

theorem findIdxAux_eq_some {α : Type} (p : α → Bool) (l : List α) (i : Nat)
    (d : α) (h : findIdxAux p l = some i) :
    i < l.length ∧ p (l.getD i d) = true ∧
      ∀ j, j < i → p (l.getD j d) = false := by
  induction l generalizing i with
  | nil => simp [findIdxAux] at h
  | cons x xs ih =>
    by_cases hx : p x
    · simp [findIdxAux, hx] at h
      subst h
      simpa using hx
    · simp [findIdxAux, hx] at h
      obtain ⟨i', hi', rfl⟩ := h
      obtain ⟨h1, h2, h3⟩ := ih i' hi'
      refine ⟨by simpa using h1, by simpa using h2, ?_⟩
      intro j hj
      match j with
      | 0 => simpa using Bool.eq_false_iff.mpr hx
      | j' + 1 => simpa using h3 j' (by omega)

theorem findIdxAux_middle {α : Type} (p : α → Bool) (l1 l2 : List α) (x : α)
    (h1 : ∀ y ∈ l1, p y = false) (hx : p x = true) :
    findIdxAux p (l1 ++ x :: l2) = some l1.length := by
  induction l1 with
  | nil => simp [findIdxAux, hx]
  | cons y ys ih =>
    have hy : p y = false := h1 y (by simp)
    simp [findIdxAux, hy, ih fun z hz => h1 z (by simp [hz])]

theorem findIdxAux_decomp {α : Type} (p : α → Bool) (l : List α) (i : Nat)
    (h : findIdxAux p l = some i) :
    ∃ l1 x l2, l = l1 ++ x :: l2 ∧ l1.length = i ∧ p x = true ∧
      ∀ y ∈ l1, p y = false := by
  induction l generalizing i with
  | nil => simp [findIdxAux] at h
  | cons a as ih =>
    by_cases ha : p a
    · simp [findIdxAux, ha] at h
      exact ⟨[], a, as, by simp, by simp [← h], ha, by simp⟩
    · simp [findIdxAux, ha] at h
      obtain ⟨i', hi', hi2⟩ := h
      obtain ⟨l1, x, l2, hl, hlen, hx, hall⟩ := ih i' hi'
      refine ⟨a :: l1, x, l2, by simp [hl], by simp [hlen, hi2], hx, ?_⟩
      intro y hy
      rcases List.mem_cons.mp hy with rfl | hmem
      · exact Bool.eq_false_iff.mpr ha
      · exact hall y hmem

theorem set_append_cons {α : Type} (l1 l2 : List α) (x a : α) :
    (l1 ++ x :: l2).set l1.length a = l1 ++ a :: l2 := by
  induction l1 with
  | nil => rfl
  | cons b bs ih => simp [List.set, ih]

theorem eraseIdx_append_cons {α : Type} (l1 l2 : List α) (x : α) :
    (l1 ++ x :: l2).eraseIdx l1.length = l1 ++ l2 := by
  induction l1 with
  | nil => rfl
  | cons b bs ih => simp [List.eraseIdx, ih]

theorem getD_append_cons {α : Type} (l1 l2 : List α) (x d : α) :
    (l1 ++ x :: l2).getD l1.length d = x := by
  rw [List.getD_eq_getElem?_getD, List.getElem?_append_right (Nat.le_refl _)]
  simp

/-! ### Access characterized by key membership -/

theorem findIdxAux_beq_eq_none {α : Type}
    (f : α → TransferBufferManagerKey) (l : List α)
    (k : TransferBufferManagerKey) :
    findIdxAux (fun e => f e == k) l = none ↔ ∀ e ∈ l, f e ≠ k := by
  rw [findIdxAux_eq_none]
  constructor
  · intro h e he
    exact by simpa using h e he
  · intro h e he
    simpa using h e he

theorem access_eq_none_parts (m : TransferBufferManagerImpl)
    (k : TransferBufferManagerKey) (hk : k.isEmpty = false) :
    m.access k = none ↔
      m.findStaticIdx k = none ∧ m.findDynamicIdx k = none := by
  rw [TransferBufferManagerImpl.access, if_neg (by simp [hk])]
  cases hs : m.findStaticIdx k with
  | some i => simp
  | none => cases hd : m.findDynamicIdx k <;> simp

theorem mem_liveKeys (m : TransferBufferManagerImpl)
    (k : TransferBufferManagerKey) (hk : k.isEmpty = false) :
    k ∈ m.liveKeys ↔
      (∃ e ∈ m.statics, e.key = k) ∨ ∃ e ∈ m.dynamics, e.key = k := by
  simp [TransferBufferManagerImpl.liveKeys, List.mem_filter, hk]

theorem access_none_iff_not_live (m : TransferBufferManagerImpl)
    (k : TransferBufferManagerKey) (hk : k.isEmpty = false) :
    m.access k = none ↔ k ∉ m.liveKeys := by
  rw [access_eq_none_parts m k hk, mem_liveKeys m k hk,
    TransferBufferManagerImpl.findStaticIdx,
    TransferBufferManagerImpl.findDynamicIdx,
    findIdxAux_beq_eq_none, findIdxAux_beq_eq_none]
  constructor
  · rintro ⟨h1, h2⟩ (⟨e, he, hkey⟩ | ⟨e, he, hkey⟩)
    · exact h1 e he hkey
    · exact h2 e he hkey
  · intro h
    exact ⟨fun e he hkey => h (Or.inl ⟨e, he, hkey⟩),
      fun e he hkey => h (Or.inr ⟨e, he, hkey⟩)⟩

/-! ### Storage optimization preserves the live-key multiset -/

theorem migrateFrom_key (s : StaticTransferBufferManagerEntryImpl)
    (d : DynamicTransferBufferManagerEntry)
    (e : StaticTransferBufferManagerEntryImpl)
    (h : s.migrateFrom d = some e) : e.key = d.key := by
  unfold StaticTransferBufferManagerEntryImpl.migrateFrom at h
  split at h
  · exact absurd h (by simp)
  · injection h with h'
    rw [← h']

theorem liveKeys_migrate_perm (l1 l2 : List StaticTransferBufferManagerEntryImpl)
    (x e : StaticTransferBufferManagerEntryImpl)
    (d : DynamicTransferBufferManagerEntry)
    (rest : List DynamicTransferBufferManagerEntry) (maxB : Nat)
    (hx : x.key.isEmpty = true) (hek : e.key = d.key) :
    (⟨l1 ++ e :: l2, rest, maxB⟩ :
        TransferBufferManagerImpl).liveKeys.Perm
      (⟨l1 ++ x :: l2, d :: rest, maxB⟩ :
        TransferBufferManagerImpl).liveKeys := by
  rw [← Multiset.coe_eq_coe]
  by_cases hdk : d.key.isEmpty
  · simp [TransferBufferManagerImpl.liveKeys, List.filter_append,
      List.filter_cons, hx, hek, hdk]
  · simp [TransferBufferManagerImpl.liveKeys, List.filter_append,
      List.filter_cons, hx, hek, hdk, ← Multiset.coe_add]
    rw [Multiset.coe_add, Multiset.coe_eq_coe]
    exact List.perm_middle.symm

theorem optLoop_liveKeys_perm (B : Nat) (fuel : Nat) :
    ∀ (m : TransferBufferManagerImpl) (pool : Nat),
      (TransferBufferManagerImpl.optLoop B fuel m pool).1.liveKeys.Perm
        m.liveKeys := by
  induction fuel with
  | zero =>
    intro m pool
    rw [TransferBufferManagerImpl.optLoop]
  | succ n ih =>
    intro m pool
    rw [TransferBufferManagerImpl.optLoop]
    cases hfree : m.findFreeStaticIdx with
    | none =>
      cases hd : m.dynamics <;> simp
    | some i =>
      cases hd : m.dynamics with
      | nil => simp
      | cons d rest =>
        cases hmig : (m.statics.getD i
            TransferBufferManagerImpl.dummyStatic).migrateFrom d with
        | none =>
          simp only [hmig]
          exact List.Perm.refl _
        | some e =>
          simp only [hmig]
          obtain ⟨s1, x, s2, hsplit, hlen, hx, hall⟩ :=
            findIdxAux_decomp _ _ _ hfree
          have hset : m.statics.set i e = s1 ++ e :: s2 := by
            rw [hsplit, ← hlen, set_append_cons]
          have hek : e.key = d.key := migrateFrom_key _ _ _ hmig
          have hperm := liveKeys_migrate_perm s1 s2 x e d rest m.maxBufSize
            (by simpa using hx) hek
          have hm : m = ⟨s1 ++ x :: s2, d :: rest, m.maxBufSize⟩ := by
            cases m
            simp_all
          refine ((ih _ _).trans ?_)
          rw [hset]
          rw [hm]
          exact hperm

theorem optLoop_no_free (B fuel : Nat) (m : TransferBufferManagerImpl)
    (pool : Nat) (h : m.findFreeStaticIdx = none) :
    TransferBufferManagerImpl.optLoop B fuel m pool = (m, pool) := by
  cases fuel with
  | zero => rw [TransferBufferManagerImpl.optLoop]
  | succ n =>
    rw [TransferBufferManagerImpl.optLoop]
    cases hd : m.dynamics <;> simp [h, hd]

theorem optimizeStorage_liveKeys_perm (B : Nat)
    (m : TransferBufferManagerImpl) (pool : Nat) :
    (TransferBufferManagerImpl.optimizeStorage B m pool).1.liveKeys.Perm
      m.liveKeys :=
  optLoop_liveKeys_perm B m.dynamics.length m pool

/-! ### Create and remove keep the live keys duplicate-free -/

theorem remove_eq_static (B : Nat) (m : TransferBufferManagerImpl)
    (pool : Nat) (k : TransferBufferManagerKey) (i : Nat)
    (hk : k.isEmpty = false) (hfs : m.findStaticIdx k = some i) :
    m.remove B pool k =
      TransferBufferManagerImpl.optimizeStorage B
        ⟨m.statics.set i ((m.statics.getD i
            TransferBufferManagerImpl.dummyStatic).rekey ⟨0, 0⟩),
         m.dynamics, m.maxBufSize⟩ pool := by
  rw [TransferBufferManagerImpl.remove, if_neg (by simp [hk]), hfs]

theorem remove_eq_dynamic (B : Nat) (m : TransferBufferManagerImpl)
    (pool : Nat) (k : TransferBufferManagerKey) (j : Nat)
    (hk : k.isEmpty = false) (hfs : m.findStaticIdx k = none)
    (hfd : m.findDynamicIdx k = some j) :
    m.remove B pool k =
      (⟨m.statics, m.dynamics.eraseIdx j, m.maxBufSize⟩,
       pool + 1 + (m.dynamics.getD j
           TransferBufferManagerImpl.dummyDynamic).blocks.length / B) := by
  rw [TransferBufferManagerImpl.remove, if_neg (by simp [hk]), hfs, hfd]

theorem remove_eq_notfound (B : Nat) (m : TransferBufferManagerImpl)
    (pool : Nat) (k : TransferBufferManagerKey)
    (hk : k.isEmpty = false) (hfs : m.findStaticIdx k = none)
    (hfd : m.findDynamicIdx k = none) :
    m.remove B pool k = (m, pool) := by
  rw [TransferBufferManagerImpl.remove, if_neg (by simp [hk]), hfs, hfd]

theorem create_eq_existing (B : Nat) (m : TransferBufferManagerImpl)
    (pool : Nat) (k : TransferBufferManagerKey) (r : BufferRef)
    (hk : k.isEmpty = false) (hacc : m.access k = some r) :
    m.create B pool k = (some r, m, pool) := by
  rw [TransferBufferManagerImpl.create, if_neg (by simp [hk]), hacc]

theorem create_eq_static (B : Nat) (m : TransferBufferManagerImpl)
    (pool : Nat) (k : TransferBufferManagerKey) (i : Nat)
    (hk : k.isEmpty = false) (hacc : m.access k = none)
    (hfree : m.findFreeStaticIdx = some i) :
    m.create B pool k =
      (some (.stat ((m.statics.getD i
          TransferBufferManagerImpl.dummyStatic).rekey k)),
       TransferBufferManagerImpl.optimizeStorage B
         ⟨m.statics.set i ((m.statics.getD i
             TransferBufferManagerImpl.dummyStatic).rekey k),
          m.dynamics, m.maxBufSize⟩ pool) := by
  rw [TransferBufferManagerImpl.create, if_neg (by simp [hk]), hacc, hfree]

theorem create_eq_dynamic (B : Nat) (m : TransferBufferManagerImpl)
    (pool : Nat) (k : TransferBufferManagerKey)
    (hk : k.isEmpty = false) (hacc : m.access k = none)
    (hfree : m.findFreeStaticIdx = none) (hpool : ¬(pool = 0)) :
    m.create B pool k =
      (some (.dyn ⟨k, [], 0, m.maxBufSize⟩),
       TransferBufferManagerImpl.optimizeStorage B
         ⟨m.statics, m.dynamics ++ [⟨k, [], 0, m.maxBufSize⟩],
          m.maxBufSize⟩ (pool - 1)) := by
  rw [TransferBufferManagerImpl.create, if_neg (by simp [hk]), hacc, hfree,
    if_neg hpool]

theorem remove_liveKeys (B : Nat) (m : TransferBufferManagerImpl)
    (pool : Nat) (k : TransferBufferManagerKey)
    (hk : k.isEmpty = false) (hnd : m.liveKeys.Nodup) :
    (m.remove B pool k).1.liveKeys.Nodup ∧
      k ∉ (m.remove B pool k).1.liveKeys := by
  obtain ⟨ss, ds, mb⟩ := m
  cases hfs : TransferBufferManagerImpl.findStaticIdx ⟨ss, ds, mb⟩ k with
  | some i =>
    rw [remove_eq_static B _ pool k i hk hfs]
    obtain ⟨l1, x, l2, hsplit, hlen, hpx, hall⟩ :=
      findIdxAux_decomp _ _ _ hfs
    have hxk : x.key = k := by simpa using hpx
    simp only at hsplit
    subst hsplit
    have hset : (l1 ++ x :: l2).set i
        ((((l1 ++ x :: l2).getD i
            TransferBufferManagerImpl.dummyStatic)).rekey ⟨0, 0⟩) =
        l1 ++ (((l1 ++ x :: l2).getD i
            TransferBufferManagerImpl.dummyStatic).rekey ⟨0, 0⟩) :: l2 := by
      rw [← hlen, set_append_cons]
    simp only [hset]
    have hold : (⟨l1 ++ x :: l2, ds, mb⟩ :
        TransferBufferManagerImpl).liveKeys =
        ((l1.map (fun e => e.key)).filter (fun q => !q.isEmpty)) ++
          k :: (((l2.map (fun e => e.key)).filter (fun q => !q.isEmpty)) ++
            ((ds.map (fun e => e.key)).filter (fun q => !q.isEmpty))) := by
      simp [TransferBufferManagerImpl.liveKeys, List.filter_append,
        List.filter_cons, hxk, hk]
    have hnew : (⟨l1 ++ (((l1 ++ x :: l2).getD i
          TransferBufferManagerImpl.dummyStatic).rekey ⟨0, 0⟩) :: l2, ds,
          mb⟩ : TransferBufferManagerImpl).liveKeys =
        ((l1.map (fun e => e.key)).filter (fun q => !q.isEmpty)) ++
          (((l2.map (fun e => e.key)).filter (fun q => !q.isEmpty)) ++
            ((ds.map (fun e => e.key)).filter (fun q => !q.isEmpty))) := by
      simp [TransferBufferManagerImpl.liveKeys, List.filter_append,
        List.filter_cons, StaticTransferBufferManagerEntryImpl.rekey,
        TransferBufferManagerKey.isEmpty]
    rw [hold] at hnd
    have hmid := List.nodup_cons.mp (List.nodup_middle.mp hnd)
    have hperm := optimizeStorage_liveKeys_perm B
      ⟨l1 ++ (((l1 ++ x :: l2).getD i
          TransferBufferManagerImpl.dummyStatic).rekey ⟨0, 0⟩) :: l2, ds,
        mb⟩ pool
    constructor
    · exact hperm.nodup_iff.mpr (by rw [hnew]; exact hmid.2)
    · intro hmem
      exact hmid.1 (by rw [hnew] at hperm; exact (hperm.mem_iff).mp hmem)
  | none =>
    cases hfd : TransferBufferManagerImpl.findDynamicIdx ⟨ss, ds, mb⟩ k with
    | some j =>
      rw [remove_eq_dynamic B _ pool k j hk hfs hfd]
      obtain ⟨l1, x, l2, hsplit, hlen, hpx, hall⟩ :=
        findIdxAux_decomp _ _ _ hfd
      have hxk : x.key = k := by simpa using hpx
      simp only at hsplit
      subst hsplit
      have herase : (l1 ++ x :: l2).eraseIdx j = l1 ++ l2 := by
        rw [← hlen, eraseIdx_append_cons]
      simp only [herase]
      have hold : (⟨ss, l1 ++ x :: l2, mb⟩ :
          TransferBufferManagerImpl).liveKeys =
          (((ss.map (fun e => e.key)).filter (fun q => !q.isEmpty)) ++
            ((l1.map (fun e => e.key)).filter (fun q => !q.isEmpty))) ++
            k :: ((l2.map (fun e => e.key)).filter (fun q => !q.isEmpty)) := by
        simp [TransferBufferManagerImpl.liveKeys, List.filter_append,
          List.filter_cons, hxk, hk]
      have hnew : (⟨ss, l1 ++ l2, mb⟩ :
          TransferBufferManagerImpl).liveKeys =
          (((ss.map (fun e => e.key)).filter (fun q => !q.isEmpty)) ++
            ((l1.map (fun e => e.key)).filter (fun q => !q.isEmpty))) ++
            ((l2.map (fun e => e.key)).filter (fun q => !q.isEmpty)) := by
        simp [TransferBufferManagerImpl.liveKeys, List.filter_append]
      rw [hold] at hnd
      have hmid := List.nodup_cons.mp (List.nodup_middle.mp hnd)
      constructor
      · rw [hnew]
        exact hmid.2
      · intro hmem
        rw [hnew] at hmem
        exact hmid.1 hmem
    | none =>
      rw [remove_eq_notfound B _ pool k hk hfs hfd]
      refine ⟨hnd, ?_⟩
      intro hmem
      rcases (mem_liveKeys _ k hk).mp hmem with ⟨e, he, hkey⟩ | ⟨e, he, hkey⟩
      · exact (findIdxAux_beq_eq_none
          (fun (e : StaticTransferBufferManagerEntryImpl) => e.key) ss
          k).mp hfs e he hkey
      · exact (findIdxAux_beq_eq_none
          (fun (e : DynamicTransferBufferManagerEntry) => e.key) ds
          k).mp hfd e he hkey

theorem liveKeys_mk (ss : List StaticTransferBufferManagerEntryImpl)
    (ds : List DynamicTransferBufferManagerEntry) (mb : Nat) :
    (⟨ss, ds, mb⟩ : TransferBufferManagerImpl).liveKeys =
      ((ss.map (fun e => e.key)).filter (fun q => !q.isEmpty)) ++
        ((ds.map (fun e => e.key)).filter (fun q => !q.isEmpty)) := by
  simp [TransferBufferManagerImpl.liveKeys, List.filter_append]

theorem create_liveKeys (B : Nat) (m : TransferBufferManagerImpl)
    (pool : Nat) (k : TransferBufferManagerKey)
    (hnd : m.liveKeys.Nodup) :
    (m.create B pool k).2.1.liveKeys.Nodup := by
  by_cases hk : k.isEmpty = true
  · rw [TransferBufferManagerImpl.create, if_pos hk]
    exact hnd
  · have hk' : k.isEmpty = false := by simpa using hk
    cases hacc : m.access k with
    | some r =>
      rw [create_eq_existing B m pool k r hk' hacc]
      exact hnd
    | none =>
      have hnl := (access_none_iff_not_live m k hk').mp hacc
      obtain ⟨ss, ds, mb⟩ := m
      cases hfree : TransferBufferManagerImpl.findFreeStaticIdx
          ⟨ss, ds, mb⟩ with
      | some i =>
        rw [create_eq_static B _ pool k i hk' hacc hfree]
        obtain ⟨l1, x, l2, hsplit, hlen, hpx, hall⟩ :=
          findIdxAux_decomp _ _ _ hfree
        have hxe : x.key.isEmpty = true := by simpa using hpx
        simp only at hsplit
        subst hsplit
        have hset : (l1 ++ x :: l2).set i
            (((l1 ++ x :: l2).getD i
                TransferBufferManagerImpl.dummyStatic).rekey k) =
            l1 ++ (((l1 ++ x :: l2).getD i
                TransferBufferManagerImpl.dummyStatic).rekey k) :: l2 := by
          rw [← hlen, set_append_cons]
        simp only [hset]
        have hperm := optimizeStorage_liveKeys_perm B
          ⟨l1 ++ (((l1 ++ x :: l2).getD i
              TransferBufferManagerImpl.dummyStatic).rekey k) :: l2, ds,
            mb⟩ pool
        refine hperm.nodup_iff.mpr ?_
        have hold : (⟨l1 ++ x :: l2, ds, mb⟩ :
            TransferBufferManagerImpl).liveKeys =
            ((l1.map (fun e => e.key)).filter (fun q => !q.isEmpty)) ++
              (((l2.map (fun e => e.key)).filter (fun q => !q.isEmpty)) ++
                ((ds.map (fun e => e.key)).filter (fun q => !q.isEmpty))) := by
          simp [TransferBufferManagerImpl.liveKeys, List.filter_append,
            List.filter_cons, hxe]
        have hnew : (⟨l1 ++ (((l1 ++ x :: l2).getD i
              TransferBufferManagerImpl.dummyStatic).rekey k) :: l2, ds,
              mb⟩ : TransferBufferManagerImpl).liveKeys =
            ((l1.map (fun e => e.key)).filter (fun q => !q.isEmpty)) ++
              k :: (((l2.map (fun e => e.key)).filter (fun q => !q.isEmpty)) ++
                ((ds.map (fun e => e.key)).filter (fun q => !q.isEmpty))) := by
          simp [TransferBufferManagerImpl.liveKeys, List.filter_append,
            List.filter_cons, StaticTransferBufferManagerEntryImpl.rekey, hk']
        rw [hnew]
        rw [hold] at hnd hnl
        exact List.nodup_middle.mpr (List.nodup_cons.mpr ⟨hnl, hnd⟩)
      | none =>
        by_cases hpool : pool = 0
        · rw [TransferBufferManagerImpl.create, if_neg (by simp [hk']),
            hacc, hfree, if_pos hpool]
          exact hnd
        · rw [create_eq_dynamic B _ pool k hk' hacc hfree hpool]
          have hperm := optimizeStorage_liveKeys_perm B
            ⟨ss, ds ++ [⟨k, [], 0, mb⟩], mb⟩ (pool - 1)
          refine hperm.nodup_iff.mpr ?_
          have hnew : (⟨ss, ds ++ [⟨k, [], 0, mb⟩], mb⟩ :
              TransferBufferManagerImpl).liveKeys =
              (((ss.map (fun e => e.key)).filter (fun q => !q.isEmpty)) ++
                ((ds.map (fun e => e.key)).filter (fun q => !q.isEmpty))) ++
                k :: [] := by
            simp [TransferBufferManagerImpl.liveKeys, List.filter_append,
              List.filter_cons, hk']
          rw [hnew]
          rw [liveKeys_mk] at hnd hnl
          refine List.nodup_middle.mpr (List.nodup_cons.mpr ⟨?_, ?_⟩)
          · simpa using hnl
          · simpa using hnd

/-! ### Tilings of an interval by write fragments -/

theorem tiles_le (fs : List (Nat × List Nat)) :
    ∀ (s e : Nat), tiles s fs e → s ≤ e := by
  induction fs with
  | nil =>
    intro s e ht
    simp [tiles] at ht
    omega
  | cons g rest ih =>
    intro s e ht
    obtain ⟨hg1, hg2, hg3⟩ := ht
    have := ih _ _ hg3
    omega

theorem tiles_bounds (fs : List (Nat × List Nat)) :
    ∀ (s e : Nat), tiles s fs e →
      ∀ f ∈ fs, s ≤ f.1 ∧ f.1 + f.2.length ≤ e ∧ f.2 ≠ [] := by
  induction fs with
  | nil => intro s e ht f hf; simp at hf
  | cons g rest ih =>
    intro s e ht f hf
    obtain ⟨hg1, hg2, hg3⟩ := ht
    rcases List.mem_cons.mp hf with rfl | hmem
    · have hse : s + f.2.length ≤ e := tiles_le rest _ _ hg3
      exact ⟨by omega, by omega, hg2⟩
    · have := ih (s + g.2.length) e hg3 f hmem
      exact ⟨by omega, this.2.1, this.2.2⟩

theorem tiles_sorted (fs : List (Nat × List Nat)) :
    ∀ (s e : Nat), tiles s fs e →
      fs.Pairwise (fun f g => f.1 + f.2.length ≤ g.1) := by
  induction fs with
  | nil => intro s e ht; exact List.Pairwise.nil
  | cons g rest ih =>
    intro s e ht
    obtain ⟨hg1, hg2, hg3⟩ := ht
    refine List.Pairwise.cons ?_ (ih _ _ hg3)
    intro f hf
    have := tiles_bounds rest _ _ hg3 f hf
    omega

theorem tiles_flatten_length (fs : List (Nat × List Nat)) :
    ∀ (s e : Nat), tiles s fs e →
      ((fs.map Prod.snd).flatten).length = e - s := by
  induction fs with
  | nil =>
    intro s e ht
    simp [tiles] at ht
    simp [ht]
  | cons g rest ih =>
    intro s e ht
    obtain ⟨hg1, hg2, hg3⟩ := ht
    have hrec := ih _ _ hg3
    have hbnd : s + g.2.length ≤ e := tiles_le rest _ _ hg3
    simp [hrec]
    omega

theorem tiles_getD (fs : List (Nat × List Nat)) :
    ∀ (s e : Nat), tiles s fs e → ∀ j, s ≤ j → j < e →
      ∃ f ∈ fs, f.1 ≤ j ∧ j < f.1 + f.2.length ∧
        ((fs.map Prod.snd).flatten).getD (j - s) 0 = f.2.getD (j - f.1) 0 := by
  induction fs with
  | nil =>
    intro s e ht j h1 h2
    simp [tiles] at ht
    omega
  | cons g rest ih =>
    intro s e ht j h1 h2
    obtain ⟨hg1, hg2, hg3⟩ := ht
    by_cases hj : j < s + g.2.length
    · refine ⟨g, by simp, by omega, by omega, ?_⟩
      rw [List.map_cons, List.flatten_cons, List.getD_eq_getElem?_getD,
        List.getElem?_append_left (by omega), ← List.getD_eq_getElem?_getD,
        hg1]
    · obtain ⟨f, hf, hf1, hf2, hf3⟩ := ih (s + g.2.length) e hg3 j
        (by omega) h2
      refine ⟨f, by simp [hf], hf1, hf2, ?_⟩
      rw [List.map_cons, List.flatten_cons, List.getD_eq_getElem?_getD,
        List.getElem?_append_right (by omega),
        ← List.getD_eq_getElem?_getD, ← hf3]
      congr 1
      omega

theorem tiles_end_mem (fs : List (Nat × List Nat)) :
    ∀ (s e : Nat), tiles s fs e → s < e →
      ∃ f ∈ fs, f.1 + f.2.length = e := by
  induction fs with
  | nil =>
    intro s e ht hlt
    simp [tiles] at ht
    omega
  | cons g rest ih =>
    intro s e ht hlt
    obtain ⟨hg1, hg2, hg3⟩ := ht
    cases hre : rest with
    | nil =>
      subst hre
      simp [tiles] at hg3
      exact ⟨g, by simp, by omega⟩
    | cons r rs =>
      subst hre
      have hb := tiles_bounds (r :: rs) _ _ hg3 r (by simp)
      have hrne : 0 < r.2.length := List.length_pos.mpr hb.2.2
      have hlt2 : s + g.2.length < e := by omega
      obtain ⟨f, hf, hfe⟩ := ih _ _ hg3 hlt2
      exact ⟨f, by simp [hf], hfe⟩

/-! ### Largest fragment end -/

theorem le_maxEnd (fs : List (Nat × List Nat)) (f : Nat × List Nat)
    (hf : f ∈ fs) : f.1 + f.2.length ≤ maxEnd fs := by
  induction fs with
  | nil => simp at hf
  | cons g rest ih =>
    rcases List.mem_cons.mp hf with rfl | hmem
    · simp [maxEnd]
    · have := ih hmem
      simp only [maxEnd, List.foldr_cons] at this ⊢
      omega

theorem maxEnd_le (fs : List (Nat × List Nat)) (c : Nat)
    (h : ∀ f ∈ fs, f.1 + f.2.length ≤ c) : maxEnd fs ≤ c := by
  induction fs with
  | nil => simp [maxEnd]
  | cons g rest ih =>
    have h1 := h g (by simp)
    have h2 := ih fun f hf => h f (by simp [hf])
    simp only [maxEnd, List.foldr_cons] at h2 ⊢
    omega

theorem maxEnd_append_singleton (S : List (Nat × List Nat))
    (f : Nat × List Nat) :
    maxEnd (S ++ [f]) = max (maxEnd S) (f.1 + f.2.length) := by
  induction S with
  | nil => simp [maxEnd]
  | cons g rest ih =>
    simp only [maxEnd, List.cons_append, List.foldr_cons] at ih ⊢
    omega

/-! ### One full write preserves the write invariant -/

theorem write_step (B maxSize pool0 L : Nat) (hB : 0 < B) (hL : L ≤ maxSize)
    (hpool : (L + B - 1) / B ≤ pool0)
    (S : List (Nat × List Nat)) (b : DynamicTransferBufferManagerEntry)
    (pl : Nat) (o : Nat) (bs : List Nat)
    (hinv : WriteInv B maxSize pool0 S b pl)
    (hfe : o + bs.length ≤ L) (hfne : bs ≠ [])
    (hdisj : ∀ g ∈ S, g.1 + g.2.length ≤ o ∨ o + bs.length ≤ g.1) :
    WriteInv B maxSize pool0 (S ++ [(o, bs)]) (b.write B pl o bs).1
      (b.write B pl o bs).2.1 ∧
      (b.write B pl o bs).2.2 = bs.length := by
  obtain ⟨hms, hdvd, hpe, hhwm, hhl, hcontent⟩ := hinv
  have hlen1 : 0 < bs.length := List.length_pos.mpr hfne
  have ho : ¬(b.maxSize ≤ o) := by rw [hms]; omega
  have hw : min bs.length (b.maxSize - o) = bs.length :=
    Nat.min_eq_left (by rw [hms]; omega)
  have hwne : ¬(bs.length = 0) := by omega
  have hd2 : (b.blocks.length / B) * B = b.blocks.length := by
    rw [Nat.mul_comm]
    exact hdvd
  have hneed_pool : (o + bs.length + B - 1) / B ≤ pool0 :=
    le_trans (Nat.div_le_div_right (by omega)) hpool
  have halloc : min ((o + bs.length + B - 1) / B - b.blocks.length / B) pl
      = (o + bs.length + B - 1) / B - b.blocks.length / B :=
    Nat.min_eq_left (by omega)
  have hcov : o + bs.length ≤ (b.blocks.length / B +
      ((o + bs.length + B - 1) / B - b.blocks.length / B)) * B := by
    have h1 : o + bs.length ≤ ((o + bs.length + B - 1) / B) * B :=
      le_ceilDiv_mul _ B hB
    have h2 : ((o + bs.length + B - 1) / B) * B ≤ (b.blocks.length / B +
        ((o + bs.length + B - 1) / B - b.blocks.length / B)) * B :=
      Nat.mul_le_mul_right B (by omega)
    omega
  have hlenle : b.blocks.length ≤ (b.blocks.length / B +
      ((o + bs.length + B - 1) / B - b.blocks.length / B)) * B := by
    have h2 : (b.blocks.length / B) * B ≤ (b.blocks.length / B +
        ((o + bs.length + B - 1) / B - b.blocks.length / B)) * B :=
      Nat.mul_le_mul_right B (by omega)
    omega
  have hwr : min bs.length ((b.blocks.length / B +
      ((o + bs.length + B - 1) / B - b.blocks.length / B)) * B - o) =
      bs.length :=
    Nat.min_eq_left (by omega)
  simp only [DynamicTransferBufferManagerEntry.write, if_neg ho, hw,
    if_neg hwne, halloc, hwr, List.take_length]
  have hchainlen : (b.blocks ++ List.replicate ((b.blocks.length / B +
      ((o + bs.length + B - 1) / B - b.blocks.length / B)) * B -
        b.blocks.length) 0).length =
      (b.blocks.length / B +
        ((o + bs.length + B - 1) / B - b.blocks.length / B)) * B := by
    simp
    omega
  have hoverlen : (listOverlay (b.blocks ++ List.replicate
      ((b.blocks.length / B +
        ((o + bs.length + B - 1) / B - b.blocks.length / B)) * B -
          b.blocks.length) 0) o bs).length =
      (b.blocks.length / B +
        ((o + bs.length + B - 1) / B - b.blocks.length / B)) * B := by
    rw [listOverlay_length _ _ _ (by rw [hchainlen]; omega)]
    exact hchainlen
  refine ⟨⟨hms, ?_, ?_, ?_, ?_, ?_⟩, by trivial⟩
  · rw [hoverlen, Nat.mul_div_cancel _ hB, Nat.mul_comm]
  · rw [hoverlen, Nat.mul_div_cancel _ hB]
    omega
  · rw [maxEnd_append_singleton, ← hhwm]
  · rw [hoverlen]
    have hold : b.maxWritePos ≤ b.blocks.length := hhl
    simp only [sup_le_iff]
    constructor
    · omega
    · omega
  · intro g hg i hi
    rcases List.mem_append.mp hg with hgs | hgf
    · have hjold : g.1 + i < b.blocks.length := by
        have h1 := le_maxEnd S g hgs
        omega
      have hoff : o ≤ (b.blocks ++ List.replicate ((b.blocks.length / B +
          ((o + bs.length + B - 1) / B - b.blocks.length / B)) * B -
            b.blocks.length) 0).length := by
        rw [hchainlen]
        omega
      rcases hdisj g hgs with hlt | hgt
      · rw [listOverlay_getD_left _ _ _ _ _ (by omega) hoff,
          append_replicate_getD_left _ _ _ _ hjold]
        exact hcontent g hgs i hi
      · rw [listOverlay_getD_right _ _ _ _ _ (by omega)
          (by rw [hchainlen]; omega),
          append_replicate_getD_left _ _ _ _ hjold]
        exact hcontent g hgs i hi
    · rcases List.mem_singleton.mp hgf with rfl
      simp only
      rw [listOverlay_getD_mid _ _ _ _ _ (by omega) (by simpa using hi)
        (by rw [hchainlen]; omega)]
      congr 1
      omega

theorem writeAll_inv (B maxSize pool0 L : Nat) (hB : 0 < B)
    (hL : L ≤ maxSize) (hpool : (L + B - 1) / B ≤ pool0) :
    ∀ (todo S : List (Nat × List Nat))
      (b : DynamicTransferBufferManagerEntry) (pl : Nat),
      WriteInv B maxSize pool0 S b pl →
      (∀ f ∈ S ++ todo, f.1 + f.2.length ≤ L ∧ f.2 ≠ []) →
      (S ++ todo).Pairwise
        (fun f g => f.1 + f.2.length ≤ g.1 ∨ g.1 + g.2.length ≤ f.1) →
      WriteInv B maxSize pool0 (S ++ todo) (writeAll B todo (b, pl)).1
        (writeAll B todo (b, pl)).2 := by
  intro todo
  induction todo with
  | nil =>
    intro S b pl hinv hbnd hpw
    simpa [writeAll] using hinv
  | cons f rest ih =>
    intro S b pl hinv hbnd hpw
    have hfS : ∀ g ∈ S, g.1 + g.2.length ≤ f.1 ∨ f.1 + f.2.length ≤ g.1 := by
      intro g hg
      exact (List.pairwise_append.mp hpw).2.2 g hg f (by simp)
    have hstep := write_step B maxSize pool0 L hB hL hpool S b pl f.1 f.2
      hinv (hbnd f (by simp)).1 (hbnd f (by simp)).2 hfS
    have hS1 : S ++ [(f.1, f.2)] = S ++ [f] := by simp
    rw [hS1] at hstep
    have hfold : writeAll B (f :: rest) (b, pl) =
        writeAll B rest
          ((b.write B pl f.1 f.2).1, (b.write B pl f.1 f.2).2.1) := rfl
    rw [hfold]
    have happ : S ++ f :: rest = (S ++ [f]) ++ rest := by simp
    rw [happ] at hbnd hpw ⊢
    exact ih (S ++ [f]) _ _ hstep.1 hbnd hpw

/-! ### Claim theorems -/

/-- C2: Round trip through the dynamic buffer.  For every tiling `fs` of
`[0, L)` by non-overlapping contiguous fragments and every call order `p`
(a permutation of `fs`), applying the writes to a fresh dynamic buffer
(capacity at least `L`, pool holding at least `ceil(L / B)` blocks) and
then reading `[0, L)` returns `L` bytes, equal to the concatenation of the
fragments in offset order. -/
theorem dynamic_buffer_roundtrip (B L maxSize pool0 : Nat)
    (k : TransferBufferManagerKey) (fs p : List (Nat × List Nat))
    (hB : 0 < B) (ht : tiles 0 fs L) (hperm : p.Perm fs)
    (hL : L ≤ maxSize) (hpool : (L + B - 1) / B ≤ pool0) :
    ((writeAll B p (⟨k, [], 0, maxSize⟩, pool0)).1.read 0 L).length = L ∧
      (writeAll B p (⟨k, [], 0, maxSize⟩, pool0)).1.read 0 L =
        (fs.map Prod.snd).flatten := by
  have hinv0 : WriteInv B maxSize pool0 []
      ⟨k, [], 0, maxSize⟩ pool0 := by
    refine ⟨rfl, by simp, by simp, by simp [maxEnd], by simp, by simp⟩
  have hbnd : ∀ f ∈ ([] : List (Nat × List Nat)) ++ p,
      f.1 + f.2.length ≤ L ∧ f.2 ≠ [] := by
    intro f hf
    simp only [List.nil_append] at hf
    have := tiles_bounds fs 0 L ht f (hperm.mem_iff.mp hf)
    exact ⟨this.2.1, this.2.2⟩
  have hpw : (([] : List (Nat × List Nat)) ++ p).Pairwise
      (fun f g => f.1 + f.2.length ≤ g.1 ∨ g.1 + g.2.length ≤ f.1) := by
    simp only [List.nil_append]
    refine (hperm.pairwise_iff fun h => Or.symm h).mpr ?_
    exact (tiles_sorted fs 0 L ht).imp fun h => Or.inl h
  have hinv := writeAll_inv B maxSize pool0 L hB hL hpool p []
    ⟨k, [], 0, maxSize⟩ pool0 hinv0 hbnd hpw
  simp only [List.nil_append] at hinv
  obtain ⟨hms, hdvd, hpe, hhwm, hhl, hcontent⟩ := hinv
  by_cases hL0 : L = 0
  · subst hL0
    have hfs : fs = [] := by
      cases hfsc : fs with
      | nil => rfl
      | cons g rest =>
        exfalso
        have hb := tiles_bounds fs 0 0 ht g (by rw [hfsc]; simp)
        have hg := List.length_pos.mpr hb.2.2
        omega
    subst hfs
    have hp : p = [] := hperm.eq_nil
    subst hp
    simp [writeAll, DynamicTransferBufferManagerEntry.read]
  · have hhwmL : (writeAll B p (⟨k, [], 0, maxSize⟩, pool0)).1.maxWritePos
        = L := by
      rw [hhwm]
      have hub : maxEnd p ≤ L := maxEnd_le p L fun f hf =>
        (tiles_bounds fs 0 L ht f (hperm.mem_iff.mp hf)).2.1
      obtain ⟨f, hf, hfe⟩ := tiles_end_mem fs 0 L ht (by omega)
      have hlb := le_maxEnd p f (hperm.mem_iff.mpr hf)
      omega
    have hLlen : L ≤
        (writeAll B p (⟨k, [], 0, maxSize⟩, pool0)).1.blocks.length := by
      rw [← hhwmL]
      exact hhl
    have hflen : ((fs.map Prod.snd).flatten).length = L := by
      have := tiles_flatten_length fs 0 L ht
      simpa using this
    have hread : (writeAll B p (⟨k, [], 0, maxSize⟩, pool0)).1.read 0 L =
        (writeAll B p (⟨k, [], 0, maxSize⟩, pool0)).1.blocks.take L := by
      rw [DynamicTransferBufferManagerEntry.read,
        if_neg (by rw [hhwmL]; omega), hhwmL]
      simp
    have htlen :
        ((writeAll B p (⟨k, [], 0, maxSize⟩, pool0)).1.blocks.take L).length
          = L := by
      rw [List.length_take]
      omega
    have heq : (writeAll B p (⟨k, [], 0, maxSize⟩, pool0)).1.blocks.take L
        = (fs.map Prod.snd).flatten := by
      apply List.ext_getElem (by rw [htlen, hflen])
      intro j h1 h2
      have hjL : j < L := by rw [htlen] at h1; exact h1
      obtain ⟨f, hf, hf1, hf2, hf3⟩ := tiles_getD fs 0 L ht j (by omega) hjL
      have hc := hcontent f (hperm.mem_iff.mpr hf) (j - f.1) (by omega)
      rw [show f.1 + (j - f.1) = j from by omega] at hc
      rw [← List.getD_eq_getElem _ 0 h1, ← List.getD_eq_getElem _ 0 h2]
      rw [List.getD_eq_getElem?_getD, List.getElem?_take_of_lt hjL,
        ← List.getD_eq_getElem?_getD, hc, ← hf3]
      simp
    rw [hread, heq]
    exact ⟨hflen, rfl⟩

theorem dynamic_buffer_roundtrip_witness :
    ((0 : Nat) < 4 ∧ tiles 0 [(0, [1, 2, 3]), (3, [4, 5, 6])] 6 ∧
        ([(3, [4, 5, 6]), (0, [1, 2, 3])] : List (Nat × List Nat)).Perm
          [(0, [1, 2, 3]), (3, [4, 5, 6])] ∧
        (6 : Nat) ≤ 8 ∧ (6 + 4 - 1) / 4 ≤ 2) ∧
      ((writeAll 4 [(3, [4, 5, 6]), (0, [1, 2, 3])]
          (⟨⟨1, 0⟩, [], 0, 8⟩, 2)).1.read 0 6).length = 6 ∧
      (writeAll 4 [(3, [4, 5, 6]), (0, [1, 2, 3])]
          (⟨⟨1, 0⟩, [], 0, 8⟩, 2)).1.read 0 6 =
        (([(0, [1, 2, 3]), (3, [4, 5, 6])] :
            List (Nat × List Nat)).map Prod.snd).flatten :=
  ⟨⟨by decide, by decide, by decide, by decide, by decide⟩,
   (dynamic_buffer_roundtrip 4 6 8 2 ⟨1, 0⟩ [(0, [1, 2, 3]), (3, [4, 5, 6])]
     [(3, [4, 5, 6]), (0, [1, 2, 3])] (by decide) (by decide)
     (by decide) (by decide) (by decide)).1,
   (dynamic_buffer_roundtrip 4 6 8 2 ⟨1, 0⟩ [(0, [1, 2, 3]), (3, [4, 5, 6])]
     [(3, [4, 5, 6]), (0, [1, 2, 3])] (by decide) (by decide)
     (by decide) (by decide) (by decide)).2⟩

/-- C5: Key uniqueness is a manager invariant — in every state reachable
from a freshly constructed manager by any sequence of `create`, `access`,
`remove` and storage-optimization operations, the live (non-empty) keys
across static and dynamic entries contain no duplicate. -/
theorem key_uniqueness_invariant (B maxBufSize numStatic pool : Nat)
    (ops : List ManagerOp) :
    (runOps B (TransferBufferManager maxBufSize numStatic, pool)
        ops).1.liveKeys.Nodup := by
  have hstep : ∀ (s : TransferBufferManagerImpl × Nat) (op : ManagerOp),
      s.1.liveKeys.Nodup → (stepOp B s op).1.liveKeys.Nodup := by
    intro s op hs
    cases op with
    | createOp k => exact create_liveKeys B s.1 s.2 k hs
    | accessOp k => exact hs
    | removeOp k =>
      by_cases hk : k.isEmpty = true
      · have : s.1.remove B s.2 k = (s.1, s.2) := by
          rw [TransferBufferManagerImpl.remove, if_pos hk]
        rw [stepOp, this]
        exact hs
      · exact (remove_liveKeys B s.1 s.2 k (by simpa using hk) hs).1
    | optimizeOp =>
      exact (optimizeStorage_liveKeys_perm B s.1 s.2).nodup_iff.mpr hs
  have hinit : (TransferBufferManager maxBufSize numStatic).liveKeys.Nodup := by
    have hempty : (TransferBufferManager maxBufSize numStatic).liveKeys = [] := by
      rw [TransferBufferManager, mkManagerImpl, liveKeys_mk]
      rw [List.append_eq_nil]
      constructor
      · rw [List.filter_eq_nil_iff]
        intro a ha
        rcases List.mem_map.mp ha with ⟨e, he, rfl⟩
        have : e = ⟨⟨0, 0⟩, ⟨List.replicate maxBufSize 0, maxBufSize, 0⟩⟩ :=
          List.eq_of_mem_replicate he
        subst this
        simp [TransferBufferManagerKey.isEmpty]
      · simp
    rw [hempty]
    exact List.nodup_nil
  have hgen : ∀ (l : List ManagerOp) (s : TransferBufferManagerImpl × Nat),
      s.1.liveKeys.Nodup → (runOps B s l).1.liveKeys.Nodup := by
    intro l
    induction l with
    | nil => intro s hs; exact hs
    | cons op rest ih =>
      intro s hs
      exact ih _ (hstep s op hs)
  exact hgen ops _ hinit

/-- C8: `remove(key)` resets the located entry — releasing the dynamic
block chain (and the pool-held entry object) back to the pool for dynamic
entries — and marks it empty; it is a no-op when the key is not found.
After `remove(key)`, `access(key)` reports not-found, and once no other
live entry remains (and dynamic entries carry non-empty keys, as the
manager maintains) `isEmpty()` returns true. -/
theorem remove_resets_entry (B : Nat) (m : TransferBufferManagerImpl)
    (pool : Nat) (k : TransferBufferManagerKey)
    (hk : k.isEmpty = false) :
    (m.access k = none → m.remove B pool k = (m, pool)) ∧
      (m.liveKeys.Nodup → (m.remove B pool k).1.access k = none) ∧
      (∀ e, m.access k = some (.dyn e) →
        (m.remove B pool k).2 = pool + 1 + e.blocks.length / B) ∧
      (m.liveKeys.Nodup → (∀ e ∈ m.dynamics, e.key.isEmpty = false) →
        m.liveKeys = [k] → (m.remove B pool k).1.isEmpty = true) := by
  refine ⟨?_, ?_, ?_, ?_⟩
  · intro hacc
    obtain ⟨hfs, hfd⟩ := (access_eq_none_parts m k hk).mp hacc
    exact remove_eq_notfound B m pool k hk hfs hfd
  · intro hnd
    exact (access_none_iff_not_live _ k hk).mpr
      (remove_liveKeys B m pool k hk hnd).2
  · intro e hacc
    rw [TransferBufferManagerImpl.access, if_neg (by simp [hk])] at hacc
    cases hfs : m.findStaticIdx k with
    | some i => rw [hfs] at hacc; simp at hacc
    | none =>
      rw [hfs] at hacc
      cases hfd : m.findDynamicIdx k with
      | none => rw [hfd] at hacc; simp at hacc
      | some j =>
        rw [hfd] at hacc
        simp only [Option.some.injEq, BufferRef.dyn.injEq] at hacc
        rw [remove_eq_dynamic B m pool k j hk hfs hfd, hacc]
  · intro hnd hdynne hone
    obtain ⟨ss, ds, mb⟩ := m
    cases hfs : TransferBufferManagerImpl.findStaticIdx ⟨ss, ds, mb⟩ k with
    | some i =>
      rw [remove_eq_static B _ pool k i hk hfs]
      obtain ⟨l1, x, l2, hsplit, hlen, hpx, hall⟩ :=
        findIdxAux_decomp _ _ _ hfs
      have hxk : x.key = k := by simpa using hpx
      simp only at hsplit
      subst hsplit
      have hone2 : ((l1.map (fun e => e.key)).filter (fun q => !q.isEmpty)) ++
          k :: (((l2.map (fun e => e.key)).filter (fun q => !q.isEmpty)) ++
            ((ds.map (fun e => e.key)).filter (fun q => !q.isEmpty))) =
          [k] := by
        rw [← hone]
        simp [TransferBufferManagerImpl.liveKeys, List.filter_append,
          List.filter_cons, hxk, hk]
      have hl1 : (l1.map (fun e => e.key)).filter (fun q => !q.isEmpty) = [] ∧
          ((l2.map (fun e => e.key)).filter (fun q => !q.isEmpty)) ++
            ((ds.map (fun e => e.key)).filter (fun q => !q.isEmpty)) = [] := by
        cases hA : (l1.map (fun e => e.key)).filter (fun q => !q.isEmpty) with
        | nil =>
          rw [hA] at hone2
          simpa using hone2
        | cons a as =>
          rw [hA] at hone2
          simp at hone2
      have hds : ds = [] := by
        cases hd : ds with
        | nil => rfl
        | cons d rest =>
          exfalso
          have hdk : d.key.isEmpty = false := hdynne d (by rw [hd]; simp)
          have hmem : d.key ∈
              ((ds.map (fun e => e.key)).filter (fun q => !q.isEmpty)) := by
            rw [hd]
            simp [List.mem_filter, hdk]
          rw [(List.append_eq_nil.mp hl1.2).2] at hmem
          simp at hmem
      subst hds
      have hopt : TransferBufferManagerImpl.optimizeStorage B
          ⟨(l1 ++ x :: l2).set i (((l1 ++ x :: l2).getD i
              TransferBufferManagerImpl.dummyStatic).rekey ⟨0, 0⟩), [],
            mb⟩ pool =
          (⟨(l1 ++ x :: l2).set i (((l1 ++ x :: l2).getD i
              TransferBufferManagerImpl.dummyStatic).rekey ⟨0, 0⟩), [],
            mb⟩, pool) := by
        rw [TransferBufferManagerImpl.optimizeStorage]
        rfl
      rw [hopt]
      have hset : (l1 ++ x :: l2).set i
          (((l1 ++ x :: l2).getD i
              TransferBufferManagerImpl.dummyStatic).rekey ⟨0, 0⟩) =
          l1 ++ (((l1 ++ x :: l2).getD i
              TransferBufferManagerImpl.dummyStatic).rekey ⟨0, 0⟩) :: l2 := by
        rw [← hlen, set_append_cons]
      rw [hset]
      rw [TransferBufferManagerImpl.isEmpty]
      have hallemp : ∀ e ∈ l1 ++ (((l1 ++ x :: l2).getD i
          TransferBufferManagerImpl.dummyStatic).rekey ⟨0, 0⟩) :: l2,
          e.key.isEmpty = true := by
        intro e he
        rcases List.mem_append.mp he with he1 | he2
        · have := List.filter_eq_nil_iff.mp hl1.1 e.key
            (List.mem_map.mpr ⟨e, he1, rfl⟩)
          simpa using this
        · rcases List.mem_cons.mp he2 with rfl | he3
          · simp [StaticTransferBufferManagerEntryImpl.rekey,
              TransferBufferManagerKey.isEmpty]
          · have := List.filter_eq_nil_iff.mp
              (List.append_eq_nil.mp hl1.2).1 e.key
              (List.mem_map.mpr ⟨e, he3, rfl⟩)
            simpa using this
      simp only [Bool.and_eq_true, List.all_eq_true, List.isEmpty_nil,
        and_true]
      intro e he
      exact hallemp e he
    | none =>
      cases hfd : TransferBufferManagerImpl.findDynamicIdx ⟨ss, ds, mb⟩ k with
      | some j =>
        rw [remove_eq_dynamic B _ pool k j hk hfs hfd]
        obtain ⟨l1, x, l2, hsplit, hlen, hpx, hall⟩ :=
          findIdxAux_decomp _ _ _ hfd
        have hxk : x.key = k := by simpa using hpx
        simp only at hsplit
        subst hsplit
        have hone2 : (((ss.map (fun e => e.key)).filter
              (fun q => !q.isEmpty)) ++
            ((l1.map (fun e => e.key)).filter (fun q => !q.isEmpty))) ++
            k :: ((l2.map (fun e => e.key)).filter (fun q => !q.isEmpty)) =
            [k] := by
          rw [← hone]
          simp [TransferBufferManagerImpl.liveKeys, List.filter_append,
            List.filter_cons, hxk, hk]
        have hparts : ((ss.map (fun e => e.key)).filter
              (fun q => !q.isEmpty)) ++
            ((l1.map (fun e => e.key)).filter (fun q => !q.isEmpty)) = [] ∧
            ((l2.map (fun e => e.key)).filter (fun q => !q.isEmpty)) = [] := by
          cases hA : ((ss.map (fun e => e.key)).filter
              (fun q => !q.isEmpty)) ++
              ((l1.map (fun e => e.key)).filter (fun q => !q.isEmpty)) with
          | nil =>
            rw [hA] at hone2
            simpa using hone2
          | cons a as =>
            rw [hA] at hone2
            simp at hone2
        have hl1nil : l1 = [] := by
          cases hd : l1 with
          | nil => rfl
          | cons d rest =>
            exfalso
            have hdk : d.key.isEmpty = false :=
              hdynne d (by rw [hd]; simp)
            have hmem : d.key ∈
                ((l1.map (fun e => e.key)).filter (fun q => !q.isEmpty)) := by
              rw [hd]
              simp [List.mem_filter, hdk]
            rw [(List.append_eq_nil.mp hparts.1).2] at hmem
            simp at hmem
        have hl2nil : l2 = [] := by
          cases hd : l2 with
          | nil => rfl
          | cons d rest =>
            exfalso
            have hdk : d.key.isEmpty = false :=
              hdynne d (by rw [hd]; simp)
            have hmem : d.key ∈
                ((l2.map (fun e => e.key)).filter (fun q => !q.isEmpty)) := by
              rw [hd]
              simp [List.mem_filter, hdk]
            rw [hparts.2] at hmem
            simp at hmem
        subst hl1nil
        subst hl2nil
        have hj0 : j = 0 := by simpa using hlen.symm
        subst hj0
        have hssemp : ∀ e ∈ ss, e.key.isEmpty = true := by
          intro e he
          have := List.filter_eq_nil_iff.mp
            (List.append_eq_nil.mp hparts.1).1 e.key
            (List.mem_map.mpr ⟨e, he, rfl⟩)
          simpa using this
        rw [TransferBufferManagerImpl.isEmpty]
        simp only [Bool.and_eq_true, List.all_eq_true]
        constructor
        · intro e he
          exact hssemp e he
        · simp
      | none =>
        exfalso
        have hnl : k ∉ (⟨ss, ds, mb⟩ :
            TransferBufferManagerImpl).liveKeys :=
          (access_none_iff_not_live _ k hk).mp
            ((access_eq_none_parts _ k hk).mpr ⟨hfs, hfd⟩)
        rw [hone] at hnl
        simp at hnl

theorem remove_resets_entry_witness :
    ((⟨1, 0⟩ : TransferBufferManagerKey).isEmpty = false ∧
        sampleMgr.liveKeys.Nodup ∧
        (∀ e ∈ sampleMgr.dynamics, e.key.isEmpty = false) ∧
        sampleMgr.liveKeys = [⟨1, 0⟩] ∧
        sampleMgr.access ⟨2, 0⟩ = none) ∧
      (sampleMgr.remove 4 5 ⟨1, 0⟩).1.access ⟨1, 0⟩ = none ∧
      (sampleMgr.remove 4 5 ⟨1, 0⟩).1.isEmpty = true ∧
      sampleMgr.remove 4 5 ⟨2, 0⟩ = (sampleMgr, 5) :=
  ⟨⟨by decide, by decide, by decide, by decide, by decide⟩,
   (remove_resets_entry 4 sampleMgr 5 ⟨1, 0⟩ (by decide)).2.1 (by decide),
   (remove_resets_entry 4 sampleMgr 5 ⟨1, 0⟩ (by decide)).2.2.2 (by decide)
     (by decide) (by decide),
   (remove_resets_entry 4 sampleMgr 5 ⟨2, 0⟩ (by decide)).1 (by decide)⟩

/-- C3: Storage optimization preserves the buffer's logical content.  In a
manager whose static slots are all occupied and whose oldest dynamic entry
holds key `de.key` with some written bytes, freeing the static slot holding
`se.key` (via `remove`) triggers optimization, which migrates the oldest
dynamic entry into the freed slot: afterwards `access(de.key)` still
succeeds, resolving to a static entry whose `read(0, maxWritePos)` returns
exactly the bytes the dynamic buffer's `read(0, maxWritePos)` returned
before migration; the dynamic entry is unlinked (its chain and entry block
released) and the pool free count strictly increases. -/
theorem migration_preserves_content (B : Nat) (pool mb : Nat)
    (ss1 ss2 : List StaticTransferBufferManagerEntryImpl)
    (se : StaticTransferBufferManagerEntryImpl)
    (de : DynamicTransferBufferManagerEntry)
    (rest : List DynamicTransferBufferManagerEntry)
    (hall : ∀ e ∈ ss1 ++ se :: ss2, e.key.isEmpty = false)
    (huniq : ∀ e ∈ ss1, e.key ≠ se.key)
    (hdk : de.key.isEmpty = false)
    (hdk1 : ∀ e ∈ ss1, e.key ≠ de.key)
    (hfit : de.maxWritePos ≤ se.buf.size)
    (hwmlen : de.maxWritePos ≤ de.blocks.length)
    (hpos : 0 < de.maxWritePos) :
    ((⟨ss1 ++ se :: ss2, de :: rest, mb⟩ :
        TransferBufferManagerImpl).remove B pool se.key).1.access de.key =
        some (.stat ⟨de.key,
          ⟨de.blocks.take de.maxWritePos ++
             List.replicate (se.buf.size - de.maxWritePos) 0,
           se.buf.size, de.maxWritePos⟩⟩) ∧
      StaticTransferBufferImpl.read
        ⟨de.blocks.take de.maxWritePos ++
           List.replicate (se.buf.size - de.maxWritePos) 0,
         se.buf.size, de.maxWritePos⟩ 0 de.maxWritePos =
        de.read 0 de.maxWritePos ∧
      ((⟨ss1 ++ se :: ss2, de :: rest, mb⟩ :
        TransferBufferManagerImpl).remove B pool se.key).1.dynamics = rest ∧
      pool <
        ((⟨ss1 ++ se :: ss2, de :: rest, mb⟩ :
          TransferBufferManagerImpl).remove B pool se.key).2 := by
  have hsek : se.key.isEmpty = false := hall se (by simp)
  have hfs : (⟨ss1 ++ se :: ss2, de :: rest, mb⟩ :
      TransferBufferManagerImpl).findStaticIdx se.key = some ss1.length := by
    rw [TransferBufferManagerImpl.findStaticIdx]
    exact findIdxAux_middle _ ss1 ss2 se
      (fun y hy => by simpa using huniq y hy) (by simp)
  rw [remove_eq_static B _ pool se.key ss1.length hsek hfs]
  have hgetD : (ss1 ++ se :: ss2).getD ss1.length
      TransferBufferManagerImpl.dummyStatic = se := getD_append_cons _ _ _ _
  rw [hgetD]
  have hset : (ss1 ++ se :: ss2).set ss1.length
      (se.rekey ⟨0, 0⟩) = ss1 ++ (se.rekey ⟨0, 0⟩) :: ss2 :=
    set_append_cons _ _ _ _
  rw [hset]
  -- one optimization step migrates `de` into the freed slot
  have hfree : (⟨ss1 ++ (se.rekey ⟨0, 0⟩) :: ss2, de :: rest, mb⟩ :
      TransferBufferManagerImpl).findFreeStaticIdx = some ss1.length := by
    rw [TransferBufferManagerImpl.findFreeStaticIdx]
    exact findIdxAux_middle _ ss1 ss2 (se.rekey ⟨0, 0⟩)
      (fun y hy => hall y (by simp [hy]))
      (by simp [StaticTransferBufferManagerEntryImpl.rekey,
        TransferBufferManagerKey.isEmpty])
  have hmig : ((se.rekey ⟨0, 0⟩).migrateFrom de) =
      some ⟨de.key,
        ⟨de.blocks.take de.maxWritePos ++
           List.replicate (se.buf.size - de.maxWritePos) 0,
         se.buf.size, de.maxWritePos⟩⟩ := by
    rw [StaticTransferBufferManagerEntryImpl.migrateFrom,
      if_neg (by simp [StaticTransferBufferManagerEntryImpl.rekey,
        StaticTransferBufferImpl.reset]; omega)]
    simp [StaticTransferBufferManagerEntryImpl.rekey,
      StaticTransferBufferImpl.reset]
  have hgetD2 : (ss1 ++ (se.rekey ⟨0, 0⟩) :: ss2).getD ss1.length
      TransferBufferManagerImpl.dummyStatic = se.rekey ⟨0, 0⟩ :=
    getD_append_cons _ _ _ _
  have hset2 : (ss1 ++ (se.rekey ⟨0, 0⟩) :: ss2).set ss1.length
      (⟨de.key,
        ⟨de.blocks.take de.maxWritePos ++
           List.replicate (se.buf.size - de.maxWritePos) 0,
         se.buf.size, de.maxWritePos⟩⟩ :
        StaticTransferBufferManagerEntryImpl) =
      ss1 ++ (⟨de.key,
        ⟨de.blocks.take de.maxWritePos ++
           List.replicate (se.buf.size - de.maxWritePos) 0,
         se.buf.size, de.maxWritePos⟩⟩ :
        StaticTransferBufferManagerEntryImpl) :: ss2 :=
    set_append_cons _ _ _ _
  have hstep : TransferBufferManagerImpl.optimizeStorage B
      ⟨ss1 ++ (se.rekey ⟨0, 0⟩) :: ss2, de :: rest, mb⟩ pool =
      TransferBufferManagerImpl.optLoop B rest.length
        ⟨ss1 ++ (⟨de.key,
          ⟨de.blocks.take de.maxWritePos ++
             List.replicate (se.buf.size - de.maxWritePos) 0,
           se.buf.size, de.maxWritePos⟩⟩ :
            StaticTransferBufferManagerEntryImpl) :: ss2, rest, mb⟩
        (pool + 1 + de.blocks.length / B) := by
    rw [TransferBufferManagerImpl.optimizeStorage]
    show TransferBufferManagerImpl.optLoop B (rest.length + 1) _ _ = _
    rw [TransferBufferManagerImpl.optLoop, hfree]
    simp only [hgetD2, hmig, hset2]
  rw [hstep]
  have hnofree : (⟨ss1 ++ (⟨de.key,
      ⟨de.blocks.take de.maxWritePos ++
         List.replicate (se.buf.size - de.maxWritePos) 0,
       se.buf.size, de.maxWritePos⟩⟩ :
        StaticTransferBufferManagerEntryImpl) :: ss2, rest, mb⟩ :
      TransferBufferManagerImpl).findFreeStaticIdx = none := by
    rw [TransferBufferManagerImpl.findFreeStaticIdx]
    rw [findIdxAux_eq_none]
    intro e he
    rcases List.mem_append.mp he with he1 | he2
    · exact hall e (by simp [he1])
    · rcases List.mem_cons.mp he2 with rfl | he3
      · exact hdk
      · exact hall e (by simp [he3])
  rw [optLoop_no_free B rest.length _ _ hnofree]
  refine ⟨?_, ?_, rfl, ?_⟩
  · rw [TransferBufferManagerImpl.access, if_neg (by simp [hdk])]
    have hfsd : (⟨ss1 ++ (⟨de.key,
        ⟨de.blocks.take de.maxWritePos ++
           List.replicate (se.buf.size - de.maxWritePos) 0,
         se.buf.size, de.maxWritePos⟩⟩ :
          StaticTransferBufferManagerEntryImpl) :: ss2, rest, mb⟩ :
        TransferBufferManagerImpl).findStaticIdx de.key = some ss1.length := by
      rw [TransferBufferManagerImpl.findStaticIdx]
      exact findIdxAux_middle _ ss1 ss2 _
        (fun y hy => by simpa using hdk1 y hy) (by simp)
    simp only [hfsd, Option.some.injEq, BufferRef.stat.injEq]
    rw [List.getD_eq_getElem _ _ (by simp), List.getElem_append_right
      (Nat.le_refl _)]
    simp
  · rw [StaticTransferBufferImpl.read, DynamicTransferBufferManagerEntry.read,
      if_neg (Nat.not_le.mpr hpos), if_neg (Nat.not_le.mpr hpos)]
    have htk : (de.blocks.take de.maxWritePos).length = de.maxWritePos := by
      simp [hwmlen]
    simp only [Nat.sub_zero, Nat.min_self, List.drop_zero]
    rw [List.take_append_eq_append_take, htk]
    simp
  · exact Nat.lt_of_lt_of_le (Nat.lt_succ_self pool)
      (Nat.le_add_right (pool + 1) _)

theorem migration_preserves_content_witness :
    ((∀ e ∈ ([] ++ sampleStatic :: []), e.key.isEmpty = false) ∧
        sampleDyn.key.isEmpty = false ∧
        sampleDyn.maxWritePos ≤ sampleStatic.buf.size ∧
        sampleDyn.maxWritePos ≤ sampleDyn.blocks.length ∧
        0 < sampleDyn.maxWritePos) ∧
      ((⟨[] ++ sampleStatic :: [], sampleDyn :: [], 16⟩ :
          TransferBufferManagerImpl).remove 4 3 sampleStatic.key).1.access
          sampleDyn.key =
        some (.stat ⟨sampleDyn.key,
          ⟨sampleDyn.blocks.take sampleDyn.maxWritePos ++
             List.replicate (sampleStatic.buf.size - sampleDyn.maxWritePos) 0,
           sampleStatic.buf.size, sampleDyn.maxWritePos⟩⟩) ∧
      StaticTransferBufferImpl.read
        ⟨sampleDyn.blocks.take sampleDyn.maxWritePos ++
           List.replicate (sampleStatic.buf.size - sampleDyn.maxWritePos) 0,
         sampleStatic.buf.size, sampleDyn.maxWritePos⟩ 0
          sampleDyn.maxWritePos =
        sampleDyn.read 0 sampleDyn.maxWritePos ∧
      ((⟨[] ++ sampleStatic :: [], sampleDyn :: [], 16⟩ :
          TransferBufferManagerImpl).remove 4 3
          sampleStatic.key).1.dynamics = [] ∧
      3 < ((⟨[] ++ sampleStatic :: [], sampleDyn :: [], 16⟩ :
          TransferBufferManagerImpl).remove 4 3 sampleStatic.key).2 :=
  ⟨⟨by decide, by decide, by decide, by decide, by decide⟩,
   (migration_preserves_content 4 3 16 [] [] sampleStatic sampleDyn []
     (by decide) (by decide) (by decide) (by decide) (by decide) (by decide)
     (by decide)).1,
   (migration_preserves_content 4 3 16 [] [] sampleStatic sampleDyn []
     (by decide) (by decide) (by decide) (by decide) (by decide) (by decide)
     (by decide)).2.1,
   (migration_preserves_content 4 3 16 [] [] sampleStatic sampleDyn []
     (by decide) (by decide) (by decide) (by decide) (by decide) (by decide)
     (by decide)).2.2.1,
   (migration_preserves_content 4 3 16 [] [] sampleStatic sampleDyn []
     (by decide) (by decide) (by decide) (by decide) (by decide) (by decide)
     (by decide)).2.2.2⟩

/-- C9: Constructing a `TransferBufferAccessor` with an empty key (one whose
origin node identifier is invalid) is rejected — for every empty key the
construction does not complete normally (the header's
`assert(!key.isEmpty())` fires, modelled as `none`). -/
theorem accessor_rejects_empty_key (k : TransferBufferManagerKey)
    (h : k.isEmpty = true) : TransferBufferAccessor.make k = none := by
  simp [TransferBufferAccessor.make, h]

theorem accessor_rejects_empty_key_witness :
    (⟨0, 5⟩ : TransferBufferManagerKey).isEmpty = true ∧
      TransferBufferAccessor.make ⟨0, 5⟩ = none :=
  ⟨by decide, accessor_rejects_empty_key ⟨0, 5⟩ (by decide)⟩

/-- C10: The `TransferBufferManager<0, 0>` specialization degenerates
trivially — for every key, `access` and `create` return the null signal,
`remove` has no effect, and `isEmpty` returns `true`. -/
theorem zero_manager_degenerate (m : TransferBufferManagerZero)
    (k : TransferBufferManagerKey) :
    m.access k = none ∧ m.create k = none ∧ m.remove k = m ∧
      m.isEmptyZero = true :=
  ⟨rfl, rfl, rfl, rfl⟩

/-- C4: `create` is idempotent — for every non-empty key already present in
the manager, a second `create` without an intervening `remove` returns the
existing entry unchanged with the manager state and pool untouched, so the
counts of occupied static slots and dynamic entries are unchanged. -/
theorem create_idempotent (B : Nat) (m : TransferBufferManagerImpl)
    (pool : Nat) (k : TransferBufferManagerKey)
    (h : (m.access k).isSome = true) :
    m.create B pool k = (m.access k, m, pool) ∧
      (m.create B pool k).2.1.getNumStaticBuffers = m.getNumStaticBuffers ∧
      (m.create B pool k).2.1.getNumDynamicBuffers =
        m.getNumDynamicBuffers ∧
      (m.create B pool k).2.2 = pool := by
  have hk : k.isEmpty = false := by
    cases hke : k.isEmpty
    · rfl
    · rw [TransferBufferManagerImpl.access, if_pos hke] at h
      simp at h
  obtain ⟨r, hr⟩ := Option.isSome_iff_exists.mp h
  have hc : m.create B pool k = (m.access k, m, pool) := by
    rw [TransferBufferManagerImpl.create, if_neg (by simp [hk]), hr]
  exact ⟨hc, by rw [hc], by rw [hc], by rw [hc]⟩

theorem create_idempotent_witness :
    (sampleMgr.access ⟨1, 0⟩).isSome = true ∧
      (sampleMgr.create 4 5 ⟨1, 0⟩ = (sampleMgr.access ⟨1, 0⟩, sampleMgr, 5) ∧
        (sampleMgr.create 4 5 ⟨1, 0⟩).2.1.getNumStaticBuffers =
          sampleMgr.getNumStaticBuffers ∧
        (sampleMgr.create 4 5 ⟨1, 0⟩).2.1.getNumDynamicBuffers =
          sampleMgr.getNumDynamicBuffers ∧
        (sampleMgr.create 4 5 ⟨1, 0⟩).2.2 = 5) :=
  ⟨by decide, create_idempotent 4 sampleMgr 5 ⟨1, 0⟩ (by decide)⟩

/-- C6: `create` failure is atomic — for a non-empty key not already
present, if no static slot is free and the pool cannot supply a block for
the dynamic entry, `create` returns the failure signal with the manager and
pool unchanged, and `access` on that unchanged state still reports
not-found. -/
theorem create_failure_atomic (B : Nat) (m : TransferBufferManagerImpl)
    (pool : Nat) (k : TransferBufferManagerKey)
    (hk : k.isEmpty = false) (habs : m.access k = none)
    (hstat : m.findFreeStaticIdx = none) (hpool : pool = 0) :
    m.create B pool k = (none, m, pool) ∧
      (m.create B pool k).2.1.access k = none := by
  have hc : m.create B pool k = (none, m, pool) := by
    rw [TransferBufferManagerImpl.create, if_neg (by simp [hk]), habs, hstat,
      if_pos hpool]
  exact ⟨hc, by rw [hc]; exact habs⟩

theorem create_failure_atomic_witness :
    ((⟨1, 0⟩ : TransferBufferManagerKey).isEmpty = false ∧
        (mkManagerImpl 0 8 8).access ⟨1, 0⟩ = none ∧
        (mkManagerImpl 0 8 8).findFreeStaticIdx = none) ∧
      (mkManagerImpl 0 8 8).create 4 0 ⟨1, 0⟩ = (none, mkManagerImpl 0 8 8, 0) ∧
        ((mkManagerImpl 0 8 8).create 4 0 ⟨1, 0⟩).2.1.access ⟨1, 0⟩ = none :=
  ⟨⟨by decide, by decide, by decide⟩,
   create_failure_atomic 4 _ 0 ⟨1, 0⟩ (by decide) (by decide) (by decide) rfl⟩

/-- C7: Writes are clamped to capacity.  For the static buffer: a write
overrunning the capacity stores only the in-bounds prefix, returns the
truncated count `size - offset`, and raises the high-water mark to
`max(old, offset + written)`; a write at or past the capacity writes zero
bytes and leaves the buffer unchanged.  For the dynamic buffer: a write at
or past the configured maximum writes zero bytes and leaves buffer and pool
unchanged, and an overrunning write with sufficient pool stores exactly
the in-bounds prefix (every stored byte below `maxSize` matches the
corresponding input byte, and every previously existing byte outside the
written range `[offset, maxSize)` is untouched), returns the truncated
count `maxSize - offset`, and raises the high-water mark to
`max(old, offset + written) = max(old, maxSize)`. -/
theorem write_clamped_to_capacity :
    (∀ (b : StaticTransferBufferImpl) (off : Nat) (bytes : List Nat),
      off < b.size → b.size < off + bytes.length →
      (b.write off bytes).2 = b.size - off ∧
        (b.write off bytes).1.data =
          listOverlay b.data off (bytes.take (b.size - off)) ∧
        (b.write off bytes).1.maxWritePos =
          max b.maxWritePos (off + (b.size - off))) ∧
      (∀ (b : StaticTransferBufferImpl) (off : Nat) (bytes : List Nat),
        b.size ≤ off → b.write off bytes = (b, 0)) ∧
      (∀ (B : Nat) (d : DynamicTransferBufferManagerEntry)
          (pool off : Nat) (bytes : List Nat),
        d.maxSize ≤ off → d.write B pool off bytes = (d, pool, 0)) ∧
      (∀ (B : Nat) (d : DynamicTransferBufferManagerEntry)
          (pool off : Nat) (bytes : List Nat),
        0 < B → off < d.maxSize → d.maxSize < off + bytes.length →
        (d.maxSize + B - 1) / B ≤ pool →
        (d.write B pool off bytes).2.2 = d.maxSize - off ∧
          (d.write B pool off bytes).1.maxWritePos =
            max d.maxWritePos d.maxSize ∧
          (∀ i, i < d.maxSize - off →
            (d.write B pool off bytes).1.blocks.getD (off + i) 0 =
              bytes.getD i 0) ∧
          (∀ j, j < d.blocks.length → j < off ∨ d.maxSize ≤ j →
            (d.write B pool off bytes).1.blocks.getD j 0 =
              d.blocks.getD j 0)) := by
  refine ⟨?_, ?_, ?_, ?_⟩
  · intro b off bytes h1 h2
    have hw : min bytes.length (b.size - off) = b.size - off := by omega
    rw [StaticTransferBufferImpl.write, if_neg (by omega)]
    simp [hw]
  · intro b off bytes h
    rw [StaticTransferBufferImpl.write, if_pos h]
  · intro B d pool off bytes h
    rw [DynamicTransferBufferManagerEntry.write, if_pos h]
  · intro B d pool off bytes hB h1 h2 hpool
    have hw : min bytes.length (d.maxSize - off) = d.maxSize - off :=
      Nat.min_eq_right (by omega)
    have hwpos : ¬(d.maxSize - off = 0) := by omega
    have hsum : off + (d.maxSize - off) = d.maxSize := by omega
    simp only [DynamicTransferBufferManagerEntry.write,
      if_neg (show ¬(d.maxSize ≤ off) by omega), hw, if_neg hwpos, hsum]
    have hneed_le : (d.maxSize + B - 1) / B ≤ pool := hpool
    have halloc :
        min ((d.maxSize + B - 1) / B - d.blocks.length / B) pool =
          (d.maxSize + B - 1) / B - d.blocks.length / B :=
      Nat.min_eq_left (Nat.le_trans (Nat.sub_le _ _) hpool)
    have hcover : d.maxSize ≤
        (d.blocks.length / B +
          ((d.maxSize + B - 1) / B - d.blocks.length / B)) * B := by
      have hA : d.maxSize ≤ ((d.maxSize + B - 1) / B) * B :=
        le_ceilDiv_mul d.maxSize B hB
      have hmul : ((d.maxSize + B - 1) / B) * B ≤
          (d.blocks.length / B +
            ((d.maxSize + B - 1) / B - d.blocks.length / B)) * B :=
        Nat.mul_le_mul_right B (by omega)
      omega
    have hwr : min (d.maxSize - off)
        ((d.blocks.length / B +
          ((d.maxSize + B - 1) / B - d.blocks.length / B)) * B - off) =
        d.maxSize - off :=
      Nat.min_eq_left (by omega)
    simp only [halloc, hwr, if_neg hwpos, hsum]
    have htklen : (List.take (d.maxSize - off) bytes).length =
        d.maxSize - off := by
      rw [List.length_take]
      exact Nat.min_eq_left (by omega)
    have hchain : (d.blocks ++ List.replicate
        ((d.blocks.length / B +
          ((d.maxSize + B - 1) / B - d.blocks.length / B)) * B -
            d.blocks.length) 0).length =
        d.blocks.length +
          ((d.blocks.length / B +
            ((d.maxSize + B - 1) / B - d.blocks.length / B)) * B -
              d.blocks.length) := by
      simp
    refine ⟨by simp, by simp, ?_, ?_⟩
    · intro i hi
      rw [listOverlay_getD_mid _ _ _ _ _ (by omega)
        (by rw [htklen]; omega) (by rw [hchain]; omega)]
      have hidx : off + i - off = i := by omega
      rw [hidx, List.getD_eq_getElem?_getD, List.getElem?_take_of_lt hi,
        ← List.getD_eq_getElem?_getD]
    · intro j hj hcase
      rcases hcase with hlt | hge
      · rw [listOverlay_getD_left _ _ _ _ _ hlt (by rw [hchain]; omega),
          append_replicate_getD_left _ _ _ _ hj]
      · rw [listOverlay_getD_right _ _ _ _ _ (by rw [htklen]; omega)
          (by rw [hchain, htklen]; omega),
          append_replicate_getD_left _ _ _ _ hj]

theorem write_clamped_to_capacity_witness :
    ((2 : Nat) < 8 ∧ (8 : Nat) < 2 + 10 ∧
        ((⟨List.replicate 8 0, 8, 3⟩ :
            StaticTransferBufferImpl).write 2 (List.replicate 10 7)).2 =
          8 - 2) ∧
      ((8 : Nat) ≤ 9 ∧
        (⟨List.replicate 8 0, 8, 3⟩ :
            StaticTransferBufferImpl).write 9 [1, 2] =
          (⟨List.replicate 8 0, 8, 3⟩, 0)) ∧
      ((16 : Nat) ≤ 16 ∧
        (⟨⟨1, 0⟩, [], 0, 16⟩ :
            DynamicTransferBufferManagerEntry).write 4 9 16 [1, 2] =
          (⟨⟨1, 0⟩, [], 0, 16⟩, 9, 0)) ∧
      ((0 : Nat) < 4 ∧ (14 : Nat) < 16 ∧ (16 : Nat) < 14 + 5 ∧
        (16 + 4 - 1) / 4 ≤ 9 ∧
        ((⟨⟨1, 0⟩, [9, 9, 9, 9], 4, 16⟩ :
            DynamicTransferBufferManagerEntry).write 4 9 14
              [1, 2, 3, 4, 5]).2.2 = 16 - 14 ∧
        ((⟨⟨1, 0⟩, [9, 9, 9, 9], 4, 16⟩ :
            DynamicTransferBufferManagerEntry).write 4 9 14
              [1, 2, 3, 4, 5]).1.blocks.getD (14 + 0) 0 =
          ([1, 2, 3, 4, 5] : List Nat).getD 0 0 ∧
        ((⟨⟨1, 0⟩, [9, 9, 9, 9], 4, 16⟩ :
            DynamicTransferBufferManagerEntry).write 4 9 14
              [1, 2, 3, 4, 5]).1.blocks.getD 0 0 =
          ([9, 9, 9, 9] : List Nat).getD 0 0) := by
  have h1 := write_clamped_to_capacity.1
    ⟨List.replicate 8 0, 8, 3⟩ 2 (List.replicate 10 7) (by decide) (by decide)
  have h2 := write_clamped_to_capacity.2.1
    ⟨List.replicate 8 0, 8, 3⟩ 9 [1, 2] (by decide)
  have h3 := write_clamped_to_capacity.2.2.1 4 ⟨⟨1, 0⟩, [], 0, 16⟩ 9 16
    [1, 2] (by decide)
  have h4 := write_clamped_to_capacity.2.2.2 4 ⟨⟨1, 0⟩, [9, 9, 9, 9], 4, 16⟩
    9 14 [1, 2, 3, 4, 5] (by decide) (by decide) (by decide) (by decide)
  exact ⟨⟨by decide, by decide, h1.1⟩, ⟨by decide, h2⟩, ⟨by decide, h3⟩,
    ⟨by decide, by decide, by decide, by decide, h4.1,
     h4.2.2.1 0 (by decide), h4.2.2.2 0 (by decide) (by decide)⟩⟩

/-- C1 counterexample: in the claim's scenario (3 static slots of 8 bytes,
block size 4, max transfer size 16, plentiful pool), `create(K2)` after
`create(K1)` does NOT place K2 in a dynamic buffer — it occupies static
slot 1, the dynamic list stays empty — and the subsequent
`write(K2, offset=12, len=2)` does not succeed: it writes 0 bytes, because
the 8-byte static slot rejects offset 12.  The manager routes placement by
slot availability alone, never by required size. -/
theorem create_routes_by_size_counterexample :
    (TransferBufferManagerImpl.create 4
        ((mkManagerImpl 3 8 16).create 4 10 ⟨1, 0⟩).2.1
        ((mkManagerImpl 3 8 16).create 4 10 ⟨1, 0⟩).2.2
        ⟨2, 0⟩).2.1.getNumDynamicBuffers = 0 ∧
      (TransferBufferManagerImpl.create 4
        ((mkManagerImpl 3 8 16).create 4 10 ⟨1, 0⟩).2.1
        ((mkManagerImpl 3 8 16).create 4 10 ⟨1, 0⟩).2.2
        ⟨2, 0⟩).2.1.findStaticIdx ⟨2, 0⟩ = some 1 ∧
      (TransferBufferManagerImpl.write 4
        (TransferBufferManagerImpl.create 4
          ((mkManagerImpl 3 8 16).create 4 10 ⟨1, 0⟩).2.1
          ((mkManagerImpl 3 8 16).create 4 10 ⟨1, 0⟩).2.2
          ⟨2, 0⟩).2.1
        (TransferBufferManagerImpl.create 4
          ((mkManagerImpl 3 8 16).create 4 10 ⟨1, 0⟩).2.1
          ((mkManagerImpl 3 8 16).create 4 10 ⟨1, 0⟩).2.2
          ⟨2, 0⟩).2.2
        ⟨2, 0⟩ 12 [170, 187]).2.2 = 0 := by
  decide

/-- C1 amended: the template manager (header line 290) gives every static
slot capacity equal to the configured maximum transfer size, so a key's
configured maximum never exceeds a static slot's capacity and no
size-based routing exists or is needed: with 3 static slots, block size 4
and max transfer size 16, `create(K2)` after `create(K1)` places K2 in
free static slot 1 (no dynamic buffer is consumed) and
`write(K2, offset=12, len=2)` succeeds there, returning 2. -/
theorem create_prefers_static_slot :
    (TransferBufferManagerImpl.create 4
        ((TransferBufferManager 16 3).create 4 10 ⟨1, 0⟩).2.1
        ((TransferBufferManager 16 3).create 4 10 ⟨1, 0⟩).2.2
        ⟨2, 0⟩).2.1.getNumDynamicBuffers = 0 ∧
      (TransferBufferManagerImpl.create 4
        ((TransferBufferManager 16 3).create 4 10 ⟨1, 0⟩).2.1
        ((TransferBufferManager 16 3).create 4 10 ⟨1, 0⟩).2.2
        ⟨2, 0⟩).2.1.findStaticIdx ⟨2, 0⟩ = some 1 ∧
      (TransferBufferManagerImpl.write 4
        (TransferBufferManagerImpl.create 4
          ((TransferBufferManager 16 3).create 4 10 ⟨1, 0⟩).2.1
          ((TransferBufferManager 16 3).create 4 10 ⟨1, 0⟩).2.2
          ⟨2, 0⟩).2.1
        (TransferBufferManagerImpl.create 4
          ((TransferBufferManager 16 3).create 4 10 ⟨1, 0⟩).2.1
          ((TransferBufferManager 16 3).create 4 10 ⟨1, 0⟩).2.2
          ⟨2, 0⟩).2.2
        ⟨2, 0⟩ 12 [170, 187]).2.2 = 2 := by
  decide

end Uavcan
